import Mathlib

/-!
Verification of the `GptTts` text-to-speech model core
(`codes/models/gpt_voice/gpt_tts.py`) and of the audio-dataset helpers
(`codes/data/audio/unsupervised_audio_dataset.py`) from the DL-Art-School
repository.

Modelling conventions:
* PyTorch 2-D integer tensors of shape (b, L) become `List (List ℕ)` (a list
  of `b` rows, each of length `L`); theorems carry a uniform-width hypothesis
  where the claim needs one, since real tensors are rectangular.
* Float values become `ℚ` where the code only compares, selects and
  multiplies-with-masks (logits, audio samples), and `ℝ` where genuinely
  transcendental functions appear (the cross-entropy losses).
* The transformer backbone (`models/gpt_voice/lucidrains_gpt.Transformer`),
  the layer norm and the two linear heads are external collaborators
  operating on an abstract embedding type `α`; they are fields of the model
  structure, constrained only by the shape contracts `nn.Linear` and the
  backbone guarantee (output length = input length, head width =
  vocabulary size).
* `nn.Embedding(num, dim)` lookups become checked lookups that fail with
  `Err.indexOutOfRange` exactly when an index is `≥ num`, mirroring the
  IndexError PyTorch raises.
* Fallible Python code returns `Except Err`.
-/

inductive Err where
  | indexOutOfRange
  | assertionError
  | fuelExhausted
  deriving DecidableEq, Repr

/-- Monadic map over `Except`, written out recursively so that proofs can
unfold it step by step.  `mapME f [x₁, …]` runs `f` left to right and stops
at the first error, like a Python loop raising an exception. -/
def mapME {β γ : Type} (f : β → Except Err γ) : List β → Except Err (List γ)
  | [] => .ok []
  | x :: xs =>
    match f x with
    | .error e => .error e
    | .ok y =>
      match mapME f xs with
      | .error e => .error e
      | .ok ys => .ok (y :: ys)

theorem mapME_ok_of_forall {β γ : Type} (f : β → Except Err γ) (g : β → γ)
    (l : List β) (h : ∀ x ∈ l, f x = .ok (g x)) : mapME f l = .ok (l.map g) := by
  induction l with
  | nil => rfl
  | cons x xs ih =>
    simp only [mapME, h x (List.mem_cons_self x xs),
      ih (fun y hy => h y (List.mem_cons_of_mem x hy)), List.map_cons]

theorem mapME_length {β γ : Type} (f : β → Except Err γ) (l : List β)
    (ys : List γ) (h : mapME f l = .ok ys) : ys.length = l.length := by
  induction l generalizing ys with
  | nil => simp only [mapME] at h; cases h; rfl
  | cons x xs ih =>
    simp only [mapME] at h
    cases hfx : f x with
    | error e => rw [hfx] at h; cases h
    | ok y =>
      rw [hfx] at h
      cases hrest : mapME f xs with
      | error e => rw [hrest] at h; cases h
      | ok ys' =>
        rw [hrest] at h
        cases h
        simp [ih ys' hrest]

theorem mapME_mem {β γ : Type} (f : β → Except Err γ) (l : List β)
    (ys : List γ) (h : mapME f l = .ok ys) :
    ∀ y ∈ ys, ∃ x ∈ l, f x = .ok y := by
  induction l generalizing ys with
  | nil => simp only [mapME] at h; cases h; intro y hy; cases hy
  | cons x xs ih =>
    simp only [mapME] at h
    cases hfx : f x with
    | error e => rw [hfx] at h; cases h
    | ok y =>
      rw [hfx] at h
      cases hrest : mapME f xs with
      | error e => rw [hrest] at h; cases h
      | ok ys' =>
        rw [hrest] at h
        cases h
        intro z hz
        rcases List.mem_cons.mp hz with rfl | hz'
        · exact ⟨x, List.mem_cons_self x xs, hfx⟩
        · rcases ih ys' hrest z hz' with ⟨w, hw, hfw⟩
          exact ⟨w, List.mem_cons_of_mem x hw, hfw⟩

/-- Index of the first maximal element of a list (0 on the empty list),
mirroring `torch.argmax` which returns the first index attaining the
maximum.  `i` is the index of the head of the remaining list, `best` the
index of the best value `bestVal` seen so far. -/
def argmaxAux {β : Type} [LinearOrder β] (i best : ℕ) (bestVal : β) :
    List β → ℕ
  | [] => best
  | x :: xs =>
    if bestVal < x then argmaxAux (i + 1) i x xs
    else argmaxAux (i + 1) best bestVal xs

def argmaxIdx {β : Type} [LinearOrder β] : List β → ℕ
  | [] => 0
  | x :: xs => argmaxAux 1 0 x xs

theorem argmaxAux_map {β γ : Type} [LinearOrder β] [LinearOrder γ]
    (f : β → γ) (hf : ∀ a b : β, f a < f b ↔ a < b) (l : List β) :
    ∀ (i best : ℕ) (bv : β),
      argmaxAux i best (f bv) (l.map f) = argmaxAux i best bv l := by
  induction l with
  | nil => intro i best bv; rfl
  | cons x xs ih =>
    intro i best bv
    simp only [List.map_cons, argmaxAux, hf]
    by_cases h : bv < x
    · simp [h, ih]
    · simp [h, ih]

theorem argmaxIdx_map {β γ : Type} [LinearOrder β] [LinearOrder γ]
    (f : β → γ) (hf : ∀ a b : β, f a < f b ↔ a < b) (l : List β) :
    argmaxIdx (l.map f) = argmaxIdx l := by
  cases l with
  | nil => rfl
  | cons x xs => simp only [List.map_cons, argmaxIdx, argmaxAux_map f hf]

theorem argmaxAux_lt {β : Type} [LinearOrder β] (l : List β) :
    ∀ (i best : ℕ) (bv : β), best < i →
      argmaxAux i best bv l < i + l.length := by
  induction l with
  | nil =>
    intro i best bv h
    simp only [argmaxAux, List.length_nil]
    omega
  | cons x xs ih =>
    intro i best bv h
    simp only [argmaxAux, List.length_cons]
    by_cases hc : bv < x
    · simp only [hc, if_true]
      have := ih (i + 1) i x (Nat.lt_succ_self i)
      omega
    · simp only [hc, if_false]
      have := ih (i + 1) best bv (Nat.lt_succ_of_lt h)
      omega

theorem argmaxIdx_lt_length {β : Type} [LinearOrder β] (l : List β)
    (h : l ≠ []) : argmaxIdx l < l.length := by
  cases l with
  | nil => exact absurd rfl h
  | cons x xs =>
    have := argmaxAux_lt xs 1 0 x Nat.zero_lt_one
    simp only [argmaxIdx, List.length_cons]
    omega

/-! ### Model constants, `GptTts` class attributes (gpt_tts.py lines 14-19, 23) -/

def MAX_SYMBOLS_PER_PHRASE : ℕ := 200
def MEL_DICTIONARY_SIZE : ℕ := 512 + 3
def MEL_START_TOKEN : ℕ := MEL_DICTIONARY_SIZE - 3
def MEL_STOP_TOKEN : ℕ := MEL_DICTIONARY_SIZE - 2

/-- `max_mel_frames = 900 * 1 // 4` from `GptTts.__init__`. -/
def maxMelFrames : ℕ := 900 * 1 / 4

/-- `NUMBER_TEXT_TOKENS = NUMBER_SYMBOLS + MAX_SYMBOLS_PER_PHRASE + 2` where
`NUMBER_SYMBOLS = len(symbols)` comes from the external symbol table
(`models/tacotron2/text`), kept abstract as `nSymbols`. -/
def NUMBER_TEXT_TOKENS (nSymbols : ℕ) : ℕ := nSymbols + MAX_SYMBOLS_PER_PHRASE + 2

/-- The `GptTts` module with its weights.  `α` is the type of model-dimension
embedding vectors.  The transformer backbone `gpt`, the final layer norm and
the two heads are opaque weight-dependent maps; `gpt_len`, `textHead_len`
and `melHead_len` record the shape contracts of `Transformer` (sequence
length preserving) and `nn.Linear` (fixed output width). -/
structure GptTtsModel (α : Type) where
  nSymbols : ℕ
  textEmbW : ℕ → α
  melEmbW : ℕ → α
  textPosW : ℕ → α
  melPosW : ℕ → α
  vecAdd : α → α → α
  gpt : List α → List α
  gpt_len : ∀ x, (gpt x).length = x.length
  finalNorm : α → α
  textHead : α → List ℚ
  textHead_len : ∀ v, (textHead v).length = NUMBER_TEXT_TOKENS nSymbols
  melHead : α → List ℚ
  melHead_len : ∀ v, (melHead v).length = MEL_DICTIONARY_SIZE

variable {α : Type}

/-- Checked `nn.Embedding(numRows, dim)` lookup over a whole id sequence:
raises IndexError when any id is out of the table. -/
def embLookup (numRows : ℕ) (w : ℕ → α) (ids : List ℕ) :
    Except Err (List α) :=
  if ∀ i ∈ ids, i < numRows then .ok (ids.map w) else .error .indexOutOfRange

theorem embLookup_eq_ok (numRows : ℕ) (w : ℕ → α) (ids : List ℕ)
    (h : ∀ i ∈ ids, i < numRows) :
    embLookup numRows w ids = .ok (ids.map w) := if_pos h

theorem embLookup_eq_error (numRows : ℕ) (w : ℕ → α) (ids : List ℕ)
    (h : ¬∀ i ∈ ids, i < numRows) :
    embLookup numRows w ids = .error .indexOutOfRange := if_neg h

theorem range_forall_lt (n k : ℕ) :
    (∀ i ∈ List.range n, i < k) ↔ n ≤ k := by
  constructor
  · intro h
    rcases Nat.eq_zero_or_pos n with hz | hp
    · omega
    · have := h (n - 1) (List.mem_range.mpr (by omega))
      omega
  · intro h i hi
    exact Nat.lt_of_lt_of_le (List.mem_range.mp hi) h

/-- Unchecked text embedding row:
`text_embedding(text_inputs) + text_pos_embedding(arange(len))`. -/
def textEmbPure (m : GptTtsModel α) (row : List ℕ) : List α :=
  List.zipWith m.vecAdd (row.map m.textEmbW)
    ((List.range row.length).map m.textPosW)

/-- Unchecked mel embedding row:
`mel_embedding(mel) + mel_pos_embedding(arange(len))`. -/
def melEmbPure (m : GptTtsModel α) (row : List ℕ) : List α :=
  List.zipWith m.vecAdd (row.map m.melEmbW)
    ((List.range row.length).map m.melPosW)

/-- Text embedding of one batch row, gpt_tts.py lines 39-40: the token
lookup is checked against `NUMBER_TEXT_TOKENS` and the position lookup
against the `MAX_SYMBOLS_PER_PHRASE`-row position table. -/
def textEmbedRow (m : GptTtsModel α) (row : List ℕ) : Except Err (List α) :=
  match embLookup (NUMBER_TEXT_TOKENS m.nSymbols) m.textEmbW row with
  | .error e => .error e
  | .ok te =>
    match embLookup MAX_SYMBOLS_PER_PHRASE m.textPosW (List.range row.length) with
    | .error e => .error e
    | .ok pe => .ok (List.zipWith m.vecAdd te pe)

/-- Mel embedding of one batch row, gpt_tts.py lines 41-42 (also the loop
body lines 81-82): token lookup checked against `MEL_DICTIONARY_SIZE`,
position lookup against the `max_mel_frames`-row position table. -/
def melEmbedRow (m : GptTtsModel α) (row : List ℕ) : Except Err (List α) :=
  match embLookup MEL_DICTIONARY_SIZE m.melEmbW row with
  | .error e => .error e
  | .ok te =>
    match embLookup maxMelFrames m.melPosW (List.range row.length) with
    | .error e => .error e
    | .ok pe => .ok (List.zipWith m.vecAdd te pe)

theorem textEmbedRow_eq_ok (m : GptTtsModel α) (row : List ℕ)
    (h1 : ∀ i ∈ row, i < NUMBER_TEXT_TOKENS m.nSymbols)
    (h2 : row.length ≤ MAX_SYMBOLS_PER_PHRASE) :
    textEmbedRow m row = .ok (textEmbPure m row) := by
  unfold textEmbedRow
  rw [embLookup_eq_ok _ _ _ h1,
    embLookup_eq_ok _ _ _ ((range_forall_lt _ _).mpr h2)]
  simp [textEmbPure]

theorem melEmbedRow_eq_ok (m : GptTtsModel α) (row : List ℕ)
    (h1 : ∀ i ∈ row, i < MEL_DICTIONARY_SIZE)
    (h2 : row.length ≤ maxMelFrames) :
    melEmbedRow m row = .ok (melEmbPure m row) := by
  unfold melEmbedRow
  rw [embLookup_eq_ok _ _ _ h1,
    embLookup_eq_ok _ _ _ ((range_forall_lt _ _).mpr h2)]
  simp [melEmbPure]

theorem textEmbedRow_ok_iff (m : GptTtsModel α) (row : List ℕ) :
    (∃ e, textEmbedRow m row = .ok e) ↔
      (∀ i ∈ row, i < NUMBER_TEXT_TOKENS m.nSymbols) ∧
        row.length ≤ MAX_SYMBOLS_PER_PHRASE := by
  constructor
  · rintro ⟨e, he⟩
    unfold textEmbedRow at he
    by_cases h1 : ∀ i ∈ row, i < NUMBER_TEXT_TOKENS m.nSymbols
    · by_cases h2 : row.length ≤ MAX_SYMBOLS_PER_PHRASE
      · exact ⟨h1, h2⟩
      · rw [embLookup_eq_ok _ _ _ h1, embLookup_eq_error _ _ _
          (fun hc => h2 ((range_forall_lt _ _).mp hc))] at he
        cases he
    · rw [embLookup_eq_error _ _ _ h1] at he
      cases he
  · rintro ⟨h1, h2⟩
    exact ⟨_, textEmbedRow_eq_ok m row h1 h2⟩

theorem melEmbedRow_ok_iff (m : GptTtsModel α) (row : List ℕ) :
    (∃ e, melEmbedRow m row = .ok e) ↔
      (∀ i ∈ row, i < MEL_DICTIONARY_SIZE) ∧ row.length ≤ maxMelFrames := by
  constructor
  · rintro ⟨e, he⟩
    unfold melEmbedRow at he
    by_cases h1 : ∀ i ∈ row, i < MEL_DICTIONARY_SIZE
    · by_cases h2 : row.length ≤ maxMelFrames
      · exact ⟨h1, h2⟩
      · rw [embLookup_eq_ok _ _ _ h1, embLookup_eq_error _ _ _
          (fun hc => h2 ((range_forall_lt _ _).mp hc))] at he
        cases he
    · rw [embLookup_eq_error _ _ _ h1] at he
      cases he
  · rintro ⟨h1, h2⟩
    exact ⟨_, melEmbedRow_eq_ok m row h1 h2⟩

theorem textEmbedRow_ok_val (m : GptTtsModel α) (row : List ℕ) (e : List α)
    (h : textEmbedRow m row = .ok e) : e = textEmbPure m row := by
  have hex : ∃ x, textEmbedRow m row = .ok x := ⟨e, h⟩
  rcases (textEmbedRow_ok_iff m row).mp hex with ⟨h1, h2⟩
  rw [textEmbedRow_eq_ok m row h1 h2] at h
  cases h
  rfl

theorem melEmbedRow_ok_val (m : GptTtsModel α) (row : List ℕ) (e : List α)
    (h : melEmbedRow m row = .ok e) : e = melEmbPure m row := by
  have hex : ∃ x, melEmbedRow m row = .ok x := ⟨e, h⟩
  rcases (melEmbedRow_ok_iff m row).mp hex with ⟨h1, h2⟩
  rw [melEmbedRow_eq_ok m row h1 h2] at h
  cases h
  rfl

theorem textEmbPure_length (m : GptTtsModel α) (row : List ℕ) :
    (textEmbPure m row).length = row.length := by
  simp [textEmbPure]

theorem melEmbPure_length (m : GptTtsModel α) (row : List ℕ) :
    (melEmbPure m row).length = row.length := by
  simp [melEmbPure]

/-! ### Joint sequence, backbone, dual heads (gpt_tts.py lines 43-50, 85-86) -/

/-- `emb = torch.cat([text_emb, mel_emb], dim=1); enc = self.gpt(emb)`. -/
def jointEnc (m : GptTtsModel α) (te me : List α) : List α :=
  m.gpt (te ++ me)

/-- Text-branch logits of one row:
`text_head(final_norm(enc[:, :text_emb.shape[1]]))`. -/
def textLogitsOf (m : GptTtsModel α) (te me : List α) : List (List ℚ) :=
  ((jointEnc m te me).take te.length).map (fun v => m.textHead (m.finalNorm v))

/-- Mel-branch logits of one row:
`mel_head(final_norm(enc[:, text_emb.shape[1]:]))`. -/
def melLogitsOf (m : GptTtsModel α) (te me : List α) : List (List ℚ) :=
  ((jointEnc m te me).drop te.length).map (fun v => m.melHead (m.finalNorm v))

theorem textLogitsOf_length (m : GptTtsModel α) (te me : List α) :
    (textLogitsOf m te me).length = te.length := by
  simp [textLogitsOf, jointEnc, m.gpt_len]

theorem melLogitsOf_length (m : GptTtsModel α) (te me : List α) :
    (melLogitsOf m te me).length = me.length := by
  simp [melLogitsOf, jointEnc, m.gpt_len]

theorem textLogitsOf_widths (m : GptTtsModel α) (te me : List α) :
    ∀ l ∈ textLogitsOf m te me, l.length = NUMBER_TEXT_TOKENS m.nSymbols := by
  intro l hl
  rcases List.mem_map.mp hl with ⟨v, _, rfl⟩
  exact m.textHead_len _

theorem melLogitsOf_widths (m : GptTtsModel α) (te me : List α) :
    ∀ l ∈ melLogitsOf m te me, l.length = MEL_DICTIONARY_SIZE := by
  intro l hl
  rcases List.mem_map.mp hl with ⟨v, _, rfl⟩
  exact m.melHead_len _

/-! ### Softmax and argmax (gpt_tts.py lines 61, 87)

The code computes `torch.argmax(F.softmax(logits, dim), dim)`.  Softmax is
a strictly monotone map of each logit (`exp xᵢ / Σ exp`, with a positive
denominator shared by the whole vector), so the argmax of the softmax is
the argmax of the raw logits; `softArgmax` below uses the raw-logit form
and theorem `argmaxIdx_softmaxR` proves it equal to the literal
argmax-of-softmax composition over the reals. -/

noncomputable def expSumQ (l : List ℚ) : ℝ :=
  (l.map (fun y : ℚ => Real.exp (y : ℝ))).sum

theorem expSumQ_pos (l : List ℚ) (h : l ≠ []) : 0 < expSumQ l := by
  cases l with
  | nil => exact absurd rfl h
  | cons x xs =>
    have hmem : Real.exp ((x : ℚ) : ℝ) ∈
        ((x :: xs).map (fun y : ℚ => Real.exp (y : ℝ))) := by
      simp
    have hnn : ∀ z ∈ ((x :: xs).map (fun y : ℚ => Real.exp (y : ℝ))), 0 ≤ z := by
      intro z hz
      rcases List.mem_map.mp hz with ⟨q, _, rfl⟩
      exact (Real.exp_pos _).le
    exact lt_of_lt_of_le (Real.exp_pos _) (List.single_le_sum hnn _ hmem)

noncomputable def softmaxR (l : List ℚ) : List ℝ :=
  l.map (fun x : ℚ => Real.exp (x : ℝ) / expSumQ l)

/-- Discrete code picked from a logit vector, the model of
`torch.argmax(F.softmax(logits, dim), dim)` at one sequence position. -/
def softArgmax (l : List ℚ) : ℕ := argmaxIdx l

theorem argmaxIdx_softmaxR (l : List ℚ) :
    argmaxIdx (softmaxR l) = softArgmax l := by
  unfold softmaxR softArgmax
  cases l with
  | nil => rfl
  | cons x xs =>
    have hS : 0 < expSumQ (x :: xs) := expSumQ_pos _ (by simp)
    have hmono : ∀ a b : ℚ,
        (Real.exp (a : ℝ) / expSumQ (x :: xs) <
          Real.exp (b : ℝ) / expSumQ (x :: xs)) ↔ a < b := by
      intro a b
      rw [div_lt_div_iff_of_pos_right hS, Real.exp_lt_exp]
      exact_mod_cast Iff.rfl
    exact argmaxIdx_map _ hmono (x :: xs)

/-! ### Cross-entropy loss (gpt_tts.py lines 55, 58)

`F.cross_entropy(logits, target)` at one position is
`-log softmax(logits)[target] = log (Σᵢ exp logitsᵢ) - logits[target]`;
`ceTerm` uses the log-sum-exp form and `ceTerm_eq_neg_log_softmax` below
checks it against the literal `-log softmax` form. -/

noncomputable def ceTerm (l : List ℚ) (t : ℕ) : ℝ :=
  Real.log (expSumQ l) - ((l.getD t 0 : ℚ) : ℝ)

theorem ceTerm_eq_neg_log_softmax (l : List ℚ) (t : ℕ) (ht : t < l.length) :
    ceTerm l t = -Real.log ((softmaxR l).getD t 0) := by
  have hne : l ≠ [] := by
    intro h
    rw [h] at ht
    exact absurd ht (by simp)
  have hS : 0 < expSumQ l := expSumQ_pos l hne
  have ht' : t < (softmaxR l).length := by
    simpa [softmaxR] using ht
  have hget : (softmaxR l).getD t 0 =
      Real.exp ((l.getD t 0 : ℚ) : ℝ) / expSumQ l := by
    rw [List.getD_eq_getElem l 0 ht, List.getD_eq_getElem _ 0 ht']
    simp [softmaxR]
  rw [hget, Real.log_div (Real.exp_ne_zero _) (ne_of_gt hS), Real.log_exp, ceTerm]
  ring

theorem ceTerm_nonneg (l : List ℚ) (t : ℕ) (ht : t < l.length) :
    0 ≤ ceTerm l t := by
  unfold ceTerm
  have hmem : Real.exp (((l.getD t 0 : ℚ)) : ℝ) ∈
      (l.map (fun y : ℚ => Real.exp (y : ℝ))) := by
    rw [List.getD_eq_getElem l 0 ht]
    exact List.mem_map.mpr ⟨l[t], List.getElem_mem _, rfl⟩
  have hnn : ∀ z ∈ (l.map (fun y : ℚ => Real.exp (y : ℝ))), 0 ≤ z := by
    intro z hz
    rcases List.mem_map.mp hz with ⟨q, _, rfl⟩
    exact (Real.exp_pos _).le
  have hle : Real.exp (((l.getD t 0 : ℚ)) : ℝ) ≤ expSumQ l :=
    List.single_le_sum hnn _ hmem
  have hpos : 0 < expSumQ l := lt_of_lt_of_le (Real.exp_pos _) hle
  have := (Real.le_log_iff_exp_le hpos).mpr hle
  linarith

/-- Mean of a list of reals; the model of `tensor.mean()`.  On the empty
list this is `0/0 = 0` in Lean's real division. -/
noncomputable def meanR (l : List ℝ) : ℝ := l.sum / l.length

theorem meanR_nonneg (l : List ℝ) (h : ∀ x ∈ l, 0 ≤ x) : 0 ≤ meanR l := by
  unfold meanR
  exact div_nonneg (List.sum_nonneg h) (Nat.cast_nonneg _)

/-! ### Training path, `GptTts.forward` (gpt_tts.py lines 38-71) -/

/-- Modelled from the spec: `get_mask_from_lengths` lives in
`models/tacotron2/taco_utils.py`, which is not part of src/.  Per the spec
(§4.3) the padding mask built from a length marks the valid positions
`t < length` against the given maximum length, and predicted codes at the
complementary (padded) positions are zeroed. -/
def maskRow (len maxLen : ℕ) : List Bool :=
  (List.range maxLen).map (fun t => decide (t < len))

/-- One row of `mel_codes * ones.masked_fill_(mel_pad_mask, 0)`
(gpt_tts.py lines 62-63): the pad mask is the negation of the length mask
built from `output_lengths - 1`, so positions `t ≥ outLen - 1` are zeroed
and the others kept. -/
def maskedCodesRow (codes : List ℕ) (outLen maxLen : ℕ) : List ℕ :=
  List.zipWith (fun c keep => if keep then c else 0) codes (maskRow (outLen - 1) maxLen)

/-- The `extra_mask` multiply of lines 65-66 and 70 at one position:
`code * (code < MEL_DICTIONARY_SIZE - 3)` zeroes the reserved
START/STOP/PAD ids the VAE does not know. -/
def zeroReserved (x : ℕ) : ℕ := if x < MEL_DICTIONARY_SIZE - 3 then x else 0

/-- One row of lines 64-66: drop the last timestep, then zero out every
code `≥ MEL_DICTIONARY_SIZE - 3` (the VAE does not know START/STOP/PAD). -/
def cleanCodesRow (masked : List ℕ) : List ℕ :=
  masked.dropLast.map zeroReserved

/-- One row of lines 56, 69-70 applied to the ground-truth mel targets:
shift by one, drop the last timestep, zero out reserved ids. -/
def cleanTargetsRow (row : List ℕ) : List ℕ :=
  ((row.drop 1).dropLast).map zeroReserved

/-- Per-row cross-entropy terms (lines 53-58): targets are the inputs
shifted left by one (`inputs[:, 1:]`), the logits drop their last
timestep (`logits[:, :, :-1]` after the channel-first permute). -/
noncomputable def ceRowTerms (logits : List (List ℚ)) (row : List ℕ) : List ℝ :=
  List.zipWith ceTerm logits.dropLast (row.drop 1)

structure ForwardResult where
  lossText : ℝ
  lossMel : ℝ
  melCodes : List (List ℕ)
  melTargets : List (List ℕ)

/-- Batched text-branch logits, one entry per (text row, mel row) pair. -/
def textLogitsRows (m : GptTtsModel α) (tes mes : List (List α)) :
    List (List (List ℚ)) :=
  (tes.zip mes).map (fun p => textLogitsOf m p.1 p.2)

/-- Batched mel-branch logits, one entry per (text row, mel row) pair. -/
def melLogitsRows (m : GptTtsModel α) (tes mes : List (List α)) :
    List (List (List ℚ)) :=
  (tes.zip mes).map (fun p => melLogitsOf m p.1 p.2)

/-- Batched predicted mel codes (line 61, after the line-57 slice):
per-position argmax of the mel logits with the last timestep dropped. -/
def rawCodesRows (m : GptTtsModel α) (tes mes : List (List α)) :
    List (List ℕ) :=
  (melLogitsRows m tes mes).map (fun lr => lr.dropLast.map softArgmax)

/-- Batched text cross-entropy terms (lines 53-55). -/
noncomputable def textTermRows (m : GptTtsModel α) (tes mes : List (List α))
    (textRows : List (List ℕ)) : List (List ℝ) :=
  List.zipWith ceRowTerms (textLogitsRows m tes mes) textRows

/-- Batched mel cross-entropy terms (lines 56-58). -/
noncomputable def melTermRows (m : GptTtsModel α) (tes mes : List (List α))
    (melRows : List (List ℕ)) : List (List ℝ) :=
  List.zipWith ceRowTerms (melLogitsRows m tes mes) melRows

/-- The body of the training path after the embedding lookups succeeded
(gpt_tts.py lines 43-71). -/
noncomputable def forwardBody (m : GptTtsModel α) (tes mes : List (List α))
    (textRows melRows : List (List ℕ)) (outputLengths : List ℕ) :
    ForwardResult :=
  let melWidth := (melRows.headD []).length
  let masked := List.zipWith
    (fun codes outLen => maskedCodesRow codes outLen (melWidth - 1))
    (rawCodesRows m tes mes) outputLengths
  ⟨meanR (textTermRows m tes mes textRows).flatten,
    meanR (melTermRows m tes mes melRows).flatten,
    masked.map cleanCodesRow, melRows.map cleanTargetsRow⟩

/-- The training path `GptTts.forward(text_inputs, text_lengths,
mel_targets, output_lengths)` (gpt_tts.py lines 38-71).  `textLengths` is
accepted but unused, exactly as in the source.  The mask width
`mel_targets.shape[1]` is taken after the shift, hence `melWidth - 1`. -/
noncomputable def forward (m : GptTtsModel α) (textRows : List (List ℕ))
    (textLengths : List ℕ) (melRows : List (List ℕ))
    (outputLengths : List ℕ) : Except Err ForwardResult :=
  match mapME (textEmbedRow m) textRows with
  | .error e => .error e
  | .ok tes =>
    match mapME (melEmbedRow m) melRows with
    | .error e => .error e
    | .ok mes => .ok (forwardBody m tes mes textRows melRows outputLengths)

/-! ### Inference path, `GptTts.inference` (gpt_tts.py lines 73-98) -/

/-- One step of the decoding loop body (lines 81-88): embed the current
mel sequence, concatenate with the fixed text embedding, run the backbone,
project the mel branch, take the argmax at every position and keep the
last one (`mel_codes[:, -1]`). -/
def nextToken (m : GptTtsModel α) (te : List α) (melRow : List ℕ) :
    Except Err ℕ :=
  match melEmbedRow m melRow with
  | .error e => .error e
  | .ok me =>
    let codes := (melLogitsOf m te me).map softArgmax
    .ok (codes.getLastD 0)

/-- The decoding `while` loop (lines 80-89).  The guard mirrors the source
bug-for-bug: `len(mel_seq)` on a 2-D tensor is its first dimension, the
batch size, so the second conjunct compares the batch size with
`max_mel_frames`.  The Python loop is unbounded; the fuel only models the
stack of an abstract machine, and `inference` passes enough fuel that
`fuelExhausted` is unreachable (each iteration grows every row by one
token and the mel position table raises IndexError beyond
`max_mel_frames` positions, see `inferLoop_no_fuelExhausted`). -/
def inferLoop (m : GptTtsModel α) (tes : List (List α)) :
    ℕ → List (List ℕ) → List Bool → Except Err (List (List ℕ))
  | 0, _, _ => .error .fuelExhausted
  | fuel + 1, melSeq, stops =>
    if stops.all (fun s => s) = false ∧ melSeq.length < maxMelFrames then
      match mapME (fun p => nextToken m p.1 p.2) (tes.zip melSeq) with
      | .error e => .error e
      | .ok nexts =>
        inferLoop m tes fuel
          (List.zipWith (fun row v => row ++ [v]) melSeq nexts)
          (List.zipWith (fun s v => s || decide (v = MEL_STOP_TOKEN)) stops nexts)
    else .ok melSeq

structure InferResult where
  warned : Bool
  melSeq : List (List ℕ)
  deriving DecidableEq, Repr

/-- `GptTts.inference(text_inputs)` (lines 73-98): embed the text, run the
decoding loop from a batch of `[MEL_START_TOKEN]` rows, report the
diagnostic condition `len(mel_seq) >= max_mel_frames` (again the batch
size, as in the source), then strip the first and last token of every row
and zero out ids `≥ 512`. -/
def inference (m : GptTtsModel α) (textRows : List (List ℕ)) :
    Except Err InferResult :=
  match mapME (textEmbedRow m) textRows with
  | .error e => .error e
  | .ok tes =>
    match inferLoop m tes (maxMelFrames + 2)
        (List.replicate textRows.length [MEL_START_TOKEN])
        (List.replicate textRows.length false) with
    | .error e => .error e
    | .ok melSeq =>
      .ok ⟨decide (maxMelFrames ≤ melSeq.length),
        melSeq.map (fun row =>
          ((row.drop 1).dropLast).map (fun x => if x < 512 then x else 0))⟩

/-! ### Audio loading, `load_audio` (unsupervised_audio_dataset.py lines 20-51)

The wav/mp3/other decoders (`load_wav_to_torch`, `load_mp3`, `open_audio`)
are external collaborators; they yield either a 1-D sample vector or a 2-D
array, modelled by `RawAudio`, together with the file's sample rate.
Sample values are modelled as `ℚ`. -/

inductive RawAudio where
  | one : List ℚ → RawAudio
  | two : List (List ℚ) → RawAudio

/-- Channel removal (lines 32-38): for more than one dimension, take row 0
if the first dimension is smaller than 5, otherwise assert the second
dimension is smaller than 5 and take column 0.  Indexing an empty first
dimension raises IndexError just as `audio[0]` would. -/
def stripChannels : RawAudio → Except Err (List ℚ)
  | .one a => .ok a
  | .two a =>
    if a.length < 5 then
      match a with
      | [] => .error .indexOutOfRange
      | r :: _ => .ok r
    else
      if (a.headD []).length < 5 then .ok (a.map (fun r => r.headD 0))
      else .error .assertionError

/-- Nearest-neighbour resampling (line 43),
`F.interpolate(..., scale_factor=sampling_rate/lsr, mode='nearest')`:
the output has `⌊n · sr / lsr⌋` samples and each output sample selects an
input sample (nearest-index lookup); no new sample values are created. -/
def resampleNearest (a : List ℚ) (lsr sr : ℕ) : List ℚ :=
  (List.range (a.length * sr / lsr)).map (fun j => a.getD (j * lsr / sr) 0)

/-- Clamp one sample into [-1, 1], the effect of `audio.clip_(-1, 1)`. -/
def clipSample (x : ℚ) : ℚ := max (-1) (min 1 x)

/-- `load_audio(audiopath, sampling_rate)` (lines 20-51) after the format
dispatch: strip channel data, resample when the file's rate `lsr` differs
from the requested rate `sr`, clip into [-1, 1] and add a leading
channel dimension (`audio.unsqueeze(0)`).  The out-of-range diagnostic
print (line 47-48) has no effect on the returned value. -/
def load_audio (raw : RawAudio) (lsr sr : ℕ) :
    Except Err (List (List ℚ)) :=
  match stripChannels raw with
  | .error e => .error e
  | .ok a =>
    let resampled := if lsr ≠ sr then resampleNearest a lsr sr else a
    .ok [resampled.map clipSample]

/-! ### Dataset retry chain, `UnsupervisedAudioDataset.__getitem__`
(unsupervised_audio_dataset.py lines 136-144)

`get_audio_for_index`/`get_related_audio_for_index` touch the file system,
so the outcome of loading index `i` is abstracted by `loads i`
(`some item` on success, `none` when anything in the `try` block raises).
The `except` branch prints `self.audiopaths[index]` when
`debug_loading_failures` is set; for an index past the end of
`audiopaths`, that lookup itself raises IndexError outside the `try`,
which the model surfaces.  Without the debug print the code recurses
unconditionally (`return self[index+1]`): the fuel counts the remaining
recursion depth of the Python stack, and running out of it models the
unbounded recursion (RecursionError). -/

structure DatasetCfg (Item : Type) where
  numPaths : ℕ
  loads : ℕ → Option Item
  debug : Bool

def getItemFuel {Item : Type} (cfg : DatasetCfg Item) :
    ℕ → ℕ → Except Err Item
  | 0, _ => .error .fuelExhausted
  | fuel + 1, i =>
    if i < cfg.numPaths then
      match cfg.loads i with
      | some it => .ok it
      | none => getItemFuel cfg fuel (i + 1)
    else
      if cfg.debug then .error .indexOutOfRange
      else getItemFuel cfg fuel (i + 1)

/-- The retry chain starting at index `i` reaches a result (success or a
surfaced exception) within some recursion depth. -/
def getItemTerminates {Item : Type} (cfg : DatasetCfg Item) (i : ℕ) : Prop :=
  ∃ fuel, getItemFuel cfg fuel i ≠ .error .fuelExhausted

/-! ### Shared supporting lemmas -/

theorem mapME_error_mem {β γ : Type} (f : β → Except Err γ) (l : List β)
    (e : Err) (h : mapME f l = .error e) : ∃ x ∈ l, f x = .error e := by
  induction l with
  | nil => simp only [mapME] at h; cases h
  | cons x xs ih =>
    simp only [mapME] at h
    cases hfx : f x with
    | error e' =>
      rw [hfx] at h
      cases h
      exact ⟨x, List.mem_cons_self x xs, hfx⟩
    | ok y =>
      rw [hfx] at h
      cases hrest : mapME f xs with
      | error e' =>
        rw [hrest] at h
        cases h
        rcases ih hrest with ⟨w, hw, hfw⟩
        exact ⟨w, List.mem_cons_of_mem x hw, hfw⟩
      | ok ys => rw [hrest] at h; cases h

theorem mem_zipWith {β γ δ : Type} (f : β → γ → δ) :
    ∀ {as : List β} {bs : List γ} {x : δ}, x ∈ List.zipWith f as bs →
      ∃ a b, a ∈ as ∧ b ∈ bs ∧ x = f a b := by
  intro as
  induction as with
  | nil => intro bs x h; simp at h
  | cons a as ih =>
    intro bs x h
    cases bs with
    | nil => simp at h
    | cons b bs =>
      rcases List.mem_cons.mp h with rfl | h'
      · exact ⟨a, b, List.mem_cons_self _ _, List.mem_cons_self _ _, rfl⟩
      · rcases ih h' with ⟨u, v, hu, hv, rfl⟩
        exact ⟨u, v, List.mem_cons_of_mem _ hu, List.mem_cons_of_mem _ hv, rfl⟩

theorem getLastD_mem_of_ne_nil {β : Type} (l : List β) (h : l ≠ []) :
    ∀ c, l.getLastD c ∈ l := by
  induction l with
  | nil => exact absurd rfl h
  | cons x xs ih =>
    intro c
    rw [List.getLastD_cons]
    cases xs with
    | nil => simp
    | cons y ys => exact List.mem_cons_of_mem x (ih (by simp) x)

theorem getLastD_eq_of_forall {β : Type} (l : List β) (c : β)
    (h : ∀ x ∈ l, x = c) : l.getLastD c = c := by
  cases l with
  | nil => rfl
  | cons x xs => exact h _ (getLastD_mem_of_ne_nil (x :: xs) (by simp) c)

theorem zipWith_replicate {β γ δ : Type} (f : β → γ → δ) (n : ℕ) (a : β) (b : γ) :
    List.zipWith f (List.replicate n a) (List.replicate n b) =
      List.replicate n (f a b) := by
  induction n with
  | zero => rfl
  | succ n ih => simp [List.replicate_succ, ih]

theorem mapME_textEmbedRow_ok (m : GptTtsModel α) (rows : List (List ℕ))
    (h1 : ∀ row ∈ rows, ∀ i ∈ row, i < NUMBER_TEXT_TOKENS m.nSymbols)
    (h2 : ∀ row ∈ rows, row.length ≤ MAX_SYMBOLS_PER_PHRASE) :
    mapME (textEmbedRow m) rows = .ok (rows.map (textEmbPure m)) :=
  mapME_ok_of_forall _ _ _
    (fun row hr => textEmbedRow_eq_ok m row (h1 row hr) (h2 row hr))

theorem mapME_melEmbedRow_ok (m : GptTtsModel α) (rows : List (List ℕ))
    (h1 : ∀ row ∈ rows, ∀ i ∈ row, i < MEL_DICTIONARY_SIZE)
    (h2 : ∀ row ∈ rows, row.length ≤ maxMelFrames) :
    mapME (melEmbedRow m) rows = .ok (rows.map (melEmbPure m)) :=
  mapME_ok_of_forall _ _ _
    (fun row hr => melEmbedRow_eq_ok m row (h1 row hr) (h2 row hr))

theorem forward_eq_ok (m : GptTtsModel α) (textRows : List (List ℕ))
    (textLengths : List ℕ) (melRows : List (List ℕ)) (outputLengths : List ℕ)
    (ht1 : ∀ row ∈ textRows, ∀ i ∈ row, i < NUMBER_TEXT_TOKENS m.nSymbols)
    (ht2 : ∀ row ∈ textRows, row.length ≤ MAX_SYMBOLS_PER_PHRASE)
    (hm1 : ∀ row ∈ melRows, ∀ i ∈ row, i < MEL_DICTIONARY_SIZE)
    (hm2 : ∀ row ∈ melRows, row.length ≤ maxMelFrames) :
    forward m textRows textLengths melRows outputLengths =
      .ok (forwardBody m (textRows.map (textEmbPure m))
        (melRows.map (melEmbPure m)) textRows melRows outputLengths) := by
  unfold forward
  rw [mapME_textEmbedRow_ok m textRows ht1 ht2,
    mapME_melEmbedRow_ok m melRows hm1 hm2]

theorem melLogitsRows_length (m : GptTtsModel α) (tes mes : List (List α)) :
    (melLogitsRows m tes mes).length = min tes.length mes.length := by
  simp [melLogitsRows]

theorem textLogitsRows_length (m : GptTtsModel α) (tes mes : List (List α)) :
    (textLogitsRows m tes mes).length = min tes.length mes.length := by
  simp [textLogitsRows]

theorem rawCodesRows_length (m : GptTtsModel α) (tes mes : List (List α)) :
    (rawCodesRows m tes mes).length = min tes.length mes.length := by
  simp [rawCodesRows, melLogitsRows]

theorem rawCodesRows_getD (m : GptTtsModel α) (tes mes : List (List α))
    (b : ℕ) (hb1 : b < tes.length) (hb2 : b < mes.length) :
    (rawCodesRows m tes mes).getD b [] =
      ((melLogitsOf m (tes.getD b []) (mes.getD b [])).dropLast).map softArgmax := by
  have hb : b < (rawCodesRows m tes mes).length := by
    rw [rawCodesRows_length]; omega
  have hbz : b < (tes.zip mes).length := by
    rw [List.length_zip]; omega
  have hbm : b < (melLogitsRows m tes mes).length := by
    rw [melLogitsRows_length]; omega
  rw [List.getD_eq_getElem _ _ hb, List.getD_eq_getElem _ _ hb1,
    List.getD_eq_getElem _ _ hb2]
  simp [rawCodesRows, melLogitsRows, List.getElem_zip]

theorem rawCodesRows_rowLength (m : GptTtsModel α) (tes mes : List (List α))
    (row : List ℕ) (hrow : row ∈ rawCodesRows m tes mes) :
    ∃ me ∈ mes, row.length = me.length - 1 := by
  rcases List.mem_map.mp hrow with ⟨lr, hlr, rfl⟩
  rcases List.mem_map.mp hlr with ⟨p, hp, rfl⟩
  refine ⟨p.2, (List.of_mem_zip hp).2, ?_⟩
  simp [melLogitsOf_length]

/-- Positions picked by `softArgmax` on a mel logit vector are below the
mel vocabulary size, since `mel_head` always outputs
`MEL_DICTIONARY_SIZE` logits. -/
theorem rawCodesRows_values (m : GptTtsModel α) (tes mes : List (List α))
    (row : List ℕ) (hrow : row ∈ rawCodesRows m tes mes) :
    ∀ x ∈ row, x < MEL_DICTIONARY_SIZE := by
  rcases List.mem_map.mp hrow with ⟨lr, hlr, rfl⟩
  rcases List.mem_map.mp hlr with ⟨p, hp, rfl⟩
  intro x hx
  rcases List.mem_map.mp hx with ⟨l, hl, rfl⟩
  have hl' : l ∈ melLogitsOf m p.1 p.2 := List.mem_of_mem_dropLast hl
  have hw := melLogitsOf_widths m p.1 p.2 l hl'
  have hne : l ≠ [] := by
    intro hnil
    rw [hnil] at hw
    simp [MEL_DICTIONARY_SIZE] at hw
  have := argmaxIdx_lt_length l hne
  rw [hw] at this
  exact this

theorem maskedCodesRow_length (codes : List ℕ) (outLen maxLen : ℕ) :
    (maskedCodesRow codes outLen maxLen).length = min codes.length maxLen := by
  simp [maskedCodesRow, maskRow]

theorem cleanCodesRow_length (masked : List ℕ) :
    (cleanCodesRow masked).length = masked.length - 1 := by
  simp [cleanCodesRow]

theorem cleanTargetsRow_length (row : List ℕ) :
    (cleanTargetsRow row).length = row.length - 1 - 1 := by
  simp [cleanTargetsRow]

theorem zeroReserved_lt (x : ℕ) : zeroReserved x < MEL_DICTIONARY_SIZE - 3 ∨
    zeroReserved x = 0 := by
  unfold zeroReserved
  by_cases h : x < MEL_DICTIONARY_SIZE - 3
  · exact Or.inl (by simp [h])
  · exact Or.inr (by simp [h])

theorem zeroReserved_lt_512 (x : ℕ) : zeroReserved x < 512 := by
  rcases zeroReserved_lt x with h | h
  · simpa [MEL_DICTIONARY_SIZE] using h
  · omega

/-- Row-level content of the masking step composed with the final cleanup
(lines 62-66): inside the returned range, a position at or beyond
`outLen - 1` is zero, and any earlier position carries the untouched
argmax code (up to the separate reserved-id zeroing). -/
theorem cleanMasked_getD (codes : List ℕ) (outLen maxLen t : ℕ)
    (hc : codes.length = maxLen) (ht : t < maxLen - 1) :
    (cleanCodesRow (maskedCodesRow codes outLen maxLen)).getD t 0 =
      if outLen - 1 ≤ t then 0 else zeroReserved (codes.getD t 0) := by
  have hmlen : (maskedCodesRow codes outLen maxLen).length = maxLen := by
    rw [maskedCodesRow_length, hc]; omega
  have htc : t < codes.length := by omega
  have htm : t < maxLen := by omega
  have ht' : t < (cleanCodesRow (maskedCodesRow codes outLen maxLen)).length := by
    rw [cleanCodesRow_length, hmlen]; omega
  rw [List.getD_eq_getElem _ _ ht', List.getD_eq_getElem _ _ htc]
  have htd : t < (maskedCodesRow codes outLen maxLen).dropLast.length := by
    simp [hmlen]; omega
  have htmm : t < (maskedCodesRow codes outLen maxLen).length := by omega
  have hmask : (maskedCodesRow codes outLen maxLen)[t] =
      if t < outLen - 1 then codes[t] else 0 := by
    simp only [maskedCodesRow, maskRow]
    rw [List.getElem_zipWith]
    congr 1
    simp only [List.getElem_map, List.getElem_range]
    by_cases h : t < outLen - 1 <;> simp [h]
  simp only [cleanCodesRow, List.getElem_map, List.getElem_dropLast]
  rw [hmask]
  by_cases h : outLen - 1 ≤ t
  · have : ¬ t < outLen - 1 := by omega
    simp [this, h, zeroReserved]
  · have : t < outLen - 1 := by omega
    simp [this, h]

theorem headD_length_eq (melRows : List (List ℕ)) (M : ℕ)
    (hM : ∀ row ∈ melRows, row.length = M) (hne : melRows ≠ []) :
    (melRows.headD []).length = M := by
  cases melRows with
  | nil => exact absurd rfl hne
  | cons hd tl => exact hM hd (List.mem_cons_self hd tl)

theorem textTermRows_nonneg (m : GptTtsModel α) (tes mes : List (List α))
    (textRows : List (List ℕ))
    (h : ∀ row ∈ textRows, ∀ i ∈ row, i < NUMBER_TEXT_TOKENS m.nSymbols) :
    ∀ x ∈ (textTermRows m tes mes textRows).flatten, 0 ≤ x := by
  intro x hx
  rcases List.mem_flatten.mp hx with ⟨terms, hterms, hxin⟩
  rcases mem_zipWith _ hterms with ⟨lr, tr, hlr, htr, rfl⟩
  rcases mem_zipWith _ hxin with ⟨l, t, hl, ht, rfl⟩
  have hlw : l.length = NUMBER_TEXT_TOKENS m.nSymbols := by
    rcases List.mem_map.mp hlr with ⟨p, hp, rfl⟩
    exact textLogitsOf_widths m p.1 p.2 l (List.mem_of_mem_dropLast hl)
  have htlt : t < l.length := by
    rw [hlw]
    exact h tr htr t (List.drop_subset 1 tr ht)
  exact ceTerm_nonneg l t htlt

theorem melTermRows_nonneg (m : GptTtsModel α) (tes mes : List (List α))
    (melRows : List (List ℕ))
    (h : ∀ row ∈ melRows, ∀ i ∈ row, i < MEL_DICTIONARY_SIZE) :
    ∀ x ∈ (melTermRows m tes mes melRows).flatten, 0 ≤ x := by
  intro x hx
  rcases List.mem_flatten.mp hx with ⟨terms, hterms, hxin⟩
  rcases mem_zipWith _ hterms with ⟨lr, tr, hlr, htr, rfl⟩
  rcases mem_zipWith _ hxin with ⟨l, t, hl, ht, rfl⟩
  have hlw : l.length = MEL_DICTIONARY_SIZE := by
    rcases List.mem_map.mp hlr with ⟨p, hp, rfl⟩
    exact melLogitsOf_widths m p.1 p.2 l (List.mem_of_mem_dropLast hl)
  have htlt : t < l.length := by
    rw [hlw]
    exact h tr htr t (List.drop_subset 1 tr ht)
  exact ceTerm_nonneg l t htlt

/-- C1 (amended): for every valid training-path call — token ids within
their vocabularies, text rows at most `MAX_SYMBOLS_PER_PHRASE` long, mel
rows of uniform length `M ≤ max_mel_frames` — `forward` succeeds and
returns two non-negative real scalar losses and two integer code tensors
with one row per batch element, each row of length `M - 2` (the training
path shifts targets by one and then strips one more trailing timestep at
lines 64 and 69, so the returned width is `M - 2`, not `M - 1`; a call
with mel width 310, as in the spec's scenario A, instead fails on the
225-entry mel position table, see the counterexample). -/
theorem gptTts_forward_shapes_and_losses (m : GptTtsModel α)
    (textRows : List (List ℕ)) (tl : List ℕ) (melRows : List (List ℕ))
    (ol : List ℕ) (M : ℕ)
    (ht1 : ∀ row ∈ textRows, ∀ i ∈ row, i < NUMBER_TEXT_TOKENS m.nSymbols)
    (ht2 : ∀ row ∈ textRows, row.length ≤ MAX_SYMBOLS_PER_PHRASE)
    (hm1 : ∀ row ∈ melRows, ∀ i ∈ row, i < MEL_DICTIONARY_SIZE)
    (hM : ∀ row ∈ melRows, row.length = M)
    (hMle : M ≤ maxMelFrames)
    (htb : textRows.length = melRows.length)
    (hob : ol.length = melRows.length) :
    ∃ r, forward m textRows tl melRows ol = .ok r ∧
      0 ≤ r.lossText ∧ 0 ≤ r.lossMel ∧
      r.melCodes.length = melRows.length ∧
      r.melTargets.length = melRows.length ∧
      (∀ row ∈ r.melCodes, row.length = M - 2) ∧
      (∀ row ∈ r.melTargets, row.length = M - 2) := by
  have hm2 : ∀ row ∈ melRows, row.length ≤ maxMelFrames :=
    fun row hr => (hM row hr) ▸ hMle
  refine ⟨_, forward_eq_ok m textRows tl melRows ol ht1 ht2 hm1 hm2,
    ?_, ?_, ?_, ?_, ?_, ?_⟩
  · exact meanR_nonneg _ (textTermRows_nonneg m _ _ textRows ht1)
  · exact meanR_nonneg _ (melTermRows_nonneg m _ _ melRows hm1)
  · simp only [forwardBody, List.length_map, List.length_zipWith,
      rawCodesRows_length]
    simp [htb, hob]
  · simp [forwardBody]
  · intro row hrow
    simp only [forwardBody, List.mem_map] at hrow
    rcases hrow with ⟨mrow, hmrow, rfl⟩
    rcases mem_zipWith _ hmrow with ⟨codes, outLen, hcodes, _, rfl⟩
    rcases rawCodesRows_rowLength m _ _ codes hcodes with ⟨me, hme, hclen⟩
    rcases List.mem_map.mp hme with ⟨mr, hmr, rfl⟩
    have hmel : (melEmbPure m mr).length = M := by
      rw [melEmbPure_length]
      exact hM mr hmr
    have hW : (melRows.headD []).length = M :=
      headD_length_eq melRows M hM (List.ne_nil_of_mem hmr)
    rw [cleanCodesRow_length, maskedCodesRow_length, hclen, hmel, hW]
    omega
  · intro row hrow
    simp only [forwardBody, List.mem_map] at hrow
    rcases hrow with ⟨mr, hmr, rfl⟩
    rw [cleanTargetsRow_length, hM mr hmr]
    omega

/-! ### Concrete model instances used for witnesses and counterexamples -/

/-- A concrete instance of the model with trivial (unit) embedding vectors
and all-zero logit heads; its argmax always picks index 0. -/
def cmZero : GptTtsModel Unit where
  nSymbols := 0
  textEmbW := fun _ => ()
  melEmbW := fun _ => ()
  textPosW := fun _ => ()
  melPosW := fun _ => ()
  vecAdd := fun _ _ => ()
  gpt := fun l => l
  gpt_len := fun _ => rfl
  finalNorm := fun v => v
  textHead := fun _ => List.replicate (NUMBER_TEXT_TOKENS 0) 0
  textHead_len := fun _ => by simp
  melHead := fun _ => List.replicate MEL_DICTIONARY_SIZE 0
  melHead_len := fun _ => by simp

/-- A concrete instance whose mel head always puts its unique maximal
logit on `MEL_STOP_TOKEN`, so greedy decoding stops immediately. -/
def cmStop : GptTtsModel Unit where
  nSymbols := 0
  textEmbW := fun _ => ()
  melEmbW := fun _ => ()
  textPosW := fun _ => ()
  melPosW := fun _ => ()
  vecAdd := fun _ _ => ()
  gpt := fun l => l
  gpt_len := fun _ => rfl
  finalNorm := fun v => v
  textHead := fun _ => List.replicate (NUMBER_TEXT_TOKENS 0) 0
  textHead_len := fun _ => by simp
  melHead := fun _ =>
    (List.range MEL_DICTIONARY_SIZE).map
      (fun i => if i = MEL_STOP_TOKEN then (1 : ℚ) else 0)
  melHead_len := fun _ => by simp

/-- A concrete instance with `ℕ` embedding vectors that emits code 5 after
the START token and STOP after anything else, so greedy decoding produces
`START, 5, STOP`. -/
def cmOneTok : GptTtsModel ℕ where
  nSymbols := 0
  textEmbW := fun _ => 0
  melEmbW := fun i => i
  textPosW := fun _ => 0
  melPosW := fun _ => 0
  vecAdd := fun a b => a + b
  gpt := fun l => l
  gpt_len := fun _ => rfl
  finalNorm := fun v => v
  textHead := fun _ => List.replicate (NUMBER_TEXT_TOKENS 0) 0
  textHead_len := fun _ => by simp
  melHead := fun v =>
    (List.range MEL_DICTIONARY_SIZE).map
      (fun i => if i = (if v = MEL_START_TOKEN then 5 else MEL_STOP_TOKEN)
        then (1 : ℚ) else 0)
  melHead_len := fun _ => by simp

/-- Observable shape of a training-path result: the per-row lengths of the
returned mel code tensor (`none` when the call raised). -/
def forwardCodesShape (res : Except Err ForwardResult) : Option (List ℕ) :=
  match res with
  | .ok r => some (r.melCodes.map List.length)
  | .error _ => none

set_option maxRecDepth 20000 in
/-- C1 (counterexample): the claim is false on the code in both respects.
A valid call with mel width `M = 4` returns code rows of length 2 = M - 2,
not M - 1 = 3; and the claimed `(2, 310)` call does not return `(2, 309)`
tensors at all — mel width 310 overruns the 225-entry mel position table
and the call raises IndexError (the repository's own `__main__` smoke test
runs exactly this shape). -/
theorem gptTts_forward_claimed_shape_false :
    forwardCodesShape
        (forward cmZero [[0], [0]] [1, 1] [[0, 0, 0, 0], [0, 0, 0, 0]] [3, 3]) =
      some [2, 2] ∧
    forward cmZero [[0], [0]] [1, 1]
        (List.replicate 2 (List.replicate 310 0)) [300, 305] =
      .error .indexOutOfRange := by
  constructor
  · rfl
  · rfl

/-- C1 (witness): the amended statement instantiated at a concrete valid
call with mel width 4. -/
theorem gptTts_forward_shapes_and_losses_witness :
    ∃ r, forward cmZero [[0], [0]] [1, 1] [[0, 0, 0, 0], [0, 0, 0, 0]] [3, 3] =
        .ok r ∧
      0 ≤ r.lossText ∧ 0 ≤ r.lossMel ∧
      r.melCodes.length = [[0, 0, 0, 0], [0, 0, 0, 0]].length ∧
      r.melTargets.length = [[0, 0, 0, 0], [0, 0, 0, 0]].length ∧
      (∀ row ∈ r.melCodes, row.length = 4 - 2) ∧
      (∀ row ∈ r.melTargets, row.length = 4 - 2) :=
  gptTts_forward_shapes_and_losses cmZero [[0], [0]] [1, 1]
    [[0, 0, 0, 0], [0, 0, 0, 0]] [3, 3] 4 (by decide) (by decide) (by decide)
    (by decide) (by decide) (by decide) (by decide)

theorem getD_map_of_lt {β γ : Type} (f : β → γ) (l : List β) (b : ℕ)
    (hb : b < l.length) (d1 : γ) (d2 : β) :
    (l.map f).getD b d1 = f (l.getD b d2) := by
  rw [List.getD_eq_getElem _ _ (by simpa using hb), List.getD_eq_getElem _ _ hb,
    List.getElem_map]

theorem ceRowTerms_length (logits : List (List ℚ)) (row : List ℕ) :
    (ceRowTerms logits row).length = min (logits.length - 1) (row.length - 1) := by
  simp [ceRowTerms]

theorem ceRowTerms_getD (logits : List (List ℚ)) (row : List ℕ) (j : ℕ)
    (hj1 : j + 1 < logits.length) (hj2 : j + 1 < row.length) :
    (ceRowTerms logits row).getD j 0 =
      ceTerm (logits.getD j []) (row.getD (j + 1) 0) := by
  have hj : j < (ceRowTerms logits row).length := by
    rw [ceRowTerms_length]; omega
  have hjl : j < logits.length := by omega
  have hjd : j < logits.dropLast.length := by simp; omega
  have hjr : j < (row.drop 1).length := by simp; omega
  rw [List.getD_eq_getElem _ _ hj, List.getD_eq_getElem _ _ hjl,
    List.getD_eq_getElem _ _ hj2]
  unfold ceRowTerms
  rw [List.getElem_zipWith]
  congr 1
  · exact List.getElem_dropLast _ _ _
  · rw [List.getElem_drop]
    congr 1
    omega

theorem textLogitsRows_getD (m : GptTtsModel α) (tes mes : List (List α))
    (b : ℕ) (hb1 : b < tes.length) (hb2 : b < mes.length) :
    (textLogitsRows m tes mes).getD b [] =
      textLogitsOf m (tes.getD b []) (mes.getD b []) := by
  have hb : b < (textLogitsRows m tes mes).length := by
    rw [textLogitsRows_length]; omega
  have hbz : b < (tes.zip mes).length := by rw [List.length_zip]; omega
  rw [List.getD_eq_getElem _ _ hb, List.getD_eq_getElem _ _ hb1,
    List.getD_eq_getElem _ _ hb2]
  simp [textLogitsRows, List.getElem_zip]

theorem melLogitsRows_getD (m : GptTtsModel α) (tes mes : List (List α))
    (b : ℕ) (hb1 : b < tes.length) (hb2 : b < mes.length) :
    (melLogitsRows m tes mes).getD b [] =
      melLogitsOf m (tes.getD b []) (mes.getD b []) := by
  have hb : b < (melLogitsRows m tes mes).length := by
    rw [melLogitsRows_length]; omega
  have hbz : b < (tes.zip mes).length := by rw [List.length_zip]; omega
  rw [List.getD_eq_getElem _ _ hb, List.getD_eq_getElem _ _ hb1,
    List.getD_eq_getElem _ _ hb2]
  simp [melLogitsRows, List.getElem_zip]

theorem textTermRows_getD (m : GptTtsModel α) (tes mes : List (List α))
    (textRows : List (List ℕ)) (b : ℕ)
    (hb1 : b < tes.length) (hb2 : b < mes.length) (hb3 : b < textRows.length) :
    (textTermRows m tes mes textRows).getD b [] =
      ceRowTerms ((textLogitsRows m tes mes).getD b []) (textRows.getD b []) := by
  have hbl : b < (textLogitsRows m tes mes).length := by
    rw [textLogitsRows_length]; omega
  have hb : b < (textTermRows m tes mes textRows).length := by
    simp only [textTermRows, List.length_zipWith, textLogitsRows_length]
    omega
  rw [List.getD_eq_getElem _ _ hb, List.getD_eq_getElem _ _ hbl,
    List.getD_eq_getElem _ _ hb3]
  unfold textTermRows
  rw [List.getElem_zipWith]

theorem melTermRows_getD (m : GptTtsModel α) (tes mes : List (List α))
    (melRows : List (List ℕ)) (b : ℕ)
    (hb1 : b < tes.length) (hb2 : b < mes.length) (hb3 : b < melRows.length) :
    (melTermRows m tes mes melRows).getD b [] =
      ceRowTerms ((melLogitsRows m tes mes).getD b []) (melRows.getD b []) := by
  have hbl : b < (melLogitsRows m tes mes).length := by
    rw [melLogitsRows_length]; omega
  have hb : b < (melTermRows m tes mes melRows).length := by
    simp only [melTermRows, List.length_zipWith, melLogitsRows_length]
    omega
  rw [List.getD_eq_getElem _ _ hb, List.getD_eq_getElem _ _ hbl,
    List.getD_eq_getElem _ _ hb3]
  unfold melTermRows
  rw [List.getElem_zipWith]

theorem textLogitsRows_rowLength (m : GptTtsModel α) (tes mes : List (List α))
    (lr : List (List ℚ)) (h : lr ∈ textLogitsRows m tes mes) :
    ∃ te ∈ tes, lr.length = te.length := by
  rcases List.mem_map.mp h with ⟨p, hp, rfl⟩
  exact ⟨p.1, (List.of_mem_zip hp).1, textLogitsOf_length m p.1 p.2⟩

theorem melLogitsRows_rowLength (m : GptTtsModel α) (tes mes : List (List α))
    (lr : List (List ℚ)) (h : lr ∈ melLogitsRows m tes mes) :
    ∃ me ∈ mes, lr.length = me.length := by
  rcases List.mem_map.mp h with ⟨p, hp, rfl⟩
  exact ⟨p.2, (List.of_mem_zip hp).2, melLogitsOf_length m p.1 p.2⟩

/-- C5 (confirmed): in the training path the targets of each modality are
the inputs shifted left by one and the last logit timestep is dropped
before the cross-entropy comparison: the `j`-th loss term of a row
compares the logits at position `j` with the input token at position
`j + 1`, and each modality contributes exactly `length - 1` loss terms
per batch row (`T - 1` for text, `M - 1` for mel); the two scalar losses
returned by `forward` are the means of exactly these term lists. -/
theorem gptTts_forward_shifted_targets (m : GptTtsModel α)
    (textRows : List (List ℕ)) (tl : List ℕ) (melRows : List (List ℕ))
    (ol : List ℕ) (T M : ℕ)
    (ht1 : ∀ row ∈ textRows, ∀ i ∈ row, i < NUMBER_TEXT_TOKENS m.nSymbols)
    (hT : ∀ row ∈ textRows, row.length = T)
    (hTle : T ≤ MAX_SYMBOLS_PER_PHRASE)
    (hm1 : ∀ row ∈ melRows, ∀ i ∈ row, i < MEL_DICTIONARY_SIZE)
    (hM : ∀ row ∈ melRows, row.length = M)
    (hMle : M ≤ maxMelFrames)
    (htb : textRows.length = melRows.length) :
    ∃ r, forward m textRows tl melRows ol = .ok r ∧
      r.lossText = meanR ((textTermRows m (textRows.map (textEmbPure m))
        (melRows.map (melEmbPure m)) textRows).flatten) ∧
      r.lossMel = meanR ((melTermRows m (textRows.map (textEmbPure m))
        (melRows.map (melEmbPure m)) melRows).flatten) ∧
      (∀ row ∈ textTermRows m (textRows.map (textEmbPure m))
          (melRows.map (melEmbPure m)) textRows, row.length = T - 1) ∧
      (∀ row ∈ melTermRows m (textRows.map (textEmbPure m))
          (melRows.map (melEmbPure m)) melRows, row.length = M - 1) ∧
      (∀ b, b < textRows.length → ∀ j, j < T - 1 →
        ((textTermRows m (textRows.map (textEmbPure m))
            (melRows.map (melEmbPure m)) textRows).getD b []).getD j 0 =
          ceTerm (((textLogitsRows m (textRows.map (textEmbPure m))
              (melRows.map (melEmbPure m))).getD b []).getD j [])
            ((textRows.getD b []).getD (j + 1) 0)) ∧
      (∀ b, b < melRows.length → ∀ j, j < M - 1 →
        ((melTermRows m (textRows.map (textEmbPure m))
            (melRows.map (melEmbPure m)) melRows).getD b []).getD j 0 =
          ceTerm (((melLogitsRows m (textRows.map (textEmbPure m))
              (melRows.map (melEmbPure m))).getD b []).getD j [])
            ((melRows.getD b []).getD (j + 1) 0)) := by
  have ht2 : ∀ row ∈ textRows, row.length ≤ MAX_SYMBOLS_PER_PHRASE :=
    fun row hr => (hT row hr) ▸ hTle
  have hm2 : ∀ row ∈ melRows, row.length ≤ maxMelFrames :=
    fun row hr => (hM row hr) ▸ hMle
  have hteslen : (textRows.map (textEmbPure m)).length = textRows.length := by
    simp
  have hmeslen : (melRows.map (melEmbPure m)).length = melRows.length := by
    simp
  refine ⟨_, forward_eq_ok m textRows tl melRows ol ht1 ht2 hm1 hm2,
    rfl, rfl, ?_, ?_, ?_, ?_⟩
  · intro row hrow
    rcases mem_zipWith _ hrow with ⟨lr, tr, hlr, htr, rfl⟩
    rcases textLogitsRows_rowLength m _ _ lr hlr with ⟨te, hte, hlen⟩
    rcases List.mem_map.mp hte with ⟨tr', htr', rfl⟩
    rw [ceRowTerms_length, hlen, textEmbPure_length, hT tr' htr', hT tr htr]
    omega
  · intro row hrow
    rcases mem_zipWith _ hrow with ⟨lr, mr, hlr, hmr, rfl⟩
    rcases melLogitsRows_rowLength m _ _ lr hlr with ⟨me, hme, hlen⟩
    rcases List.mem_map.mp hme with ⟨mr', hmr', rfl⟩
    rw [ceRowTerms_length, hlen, melEmbPure_length, hM mr' hmr', hM mr hmr]
    omega
  · intro b hb j hj
    have hb2 : b < melRows.length := htb ▸ hb
    rw [textTermRows_getD m _ _ textRows b (by omega) (by omega) hb]
    have hrowlen : (textRows.getD b []).length = T :=
      hT _ (List.getD_eq_getElem textRows [] hb ▸ List.getElem_mem _)
    have hloglen : ((textLogitsRows m (textRows.map (textEmbPure m))
        (melRows.map (melEmbPure m))).getD b []).length = T := by
      rw [textLogitsRows_getD m _ _ b (by omega) (by omega),
        textLogitsOf_length, getD_map_of_lt (textEmbPure m) textRows b hb _ [],
        textEmbPure_length, hrowlen]
    exact ceRowTerms_getD _ _ j (by omega) (by omega)
  · intro b hb j hj
    have hb1 : b < textRows.length := htb ▸ hb
    rw [melTermRows_getD m _ _ melRows b (by omega) (by omega) hb]
    have hrowlen : (melRows.getD b []).length = M :=
      hM _ (List.getD_eq_getElem melRows [] hb ▸ List.getElem_mem _)
    have hloglen : ((melLogitsRows m (textRows.map (textEmbPure m))
        (melRows.map (melEmbPure m))).getD b []).length = M := by
      rw [melLogitsRows_getD m _ _ b (by omega) (by omega),
        melLogitsOf_length, getD_map_of_lt (melEmbPure m) melRows b hb _ [],
        melEmbPure_length, hrowlen]
    exact ceRowTerms_getD _ _ j (by omega) (by omega)

/-- C5 (witness): the shifted-target statement instantiated at a concrete
valid call with text width 2 and mel width 4. -/
theorem gptTts_forward_shifted_targets_witness :
    ∃ r, forward cmZero [[0, 1], [1, 0]] [2, 2] [[0, 0, 0, 0], [0, 0, 0, 0]]
        [3, 3] = .ok r ∧
      r.lossText = meanR ((textTermRows cmZero
        ([[0, 1], [1, 0]].map (textEmbPure cmZero))
        ([[0, 0, 0, 0], [0, 0, 0, 0]].map (melEmbPure cmZero))
        [[0, 1], [1, 0]]).flatten) ∧
      r.lossMel = meanR ((melTermRows cmZero
        ([[0, 1], [1, 0]].map (textEmbPure cmZero))
        ([[0, 0, 0, 0], [0, 0, 0, 0]].map (melEmbPure cmZero))
        [[0, 0, 0, 0], [0, 0, 0, 0]]).flatten) ∧
      (∀ row ∈ textTermRows cmZero
          ([[0, 1], [1, 0]].map (textEmbPure cmZero))
          ([[0, 0, 0, 0], [0, 0, 0, 0]].map (melEmbPure cmZero))
          [[0, 1], [1, 0]], row.length = 2 - 1) ∧
      (∀ row ∈ melTermRows cmZero
          ([[0, 1], [1, 0]].map (textEmbPure cmZero))
          ([[0, 0, 0, 0], [0, 0, 0, 0]].map (melEmbPure cmZero))
          [[0, 0, 0, 0], [0, 0, 0, 0]], row.length = 4 - 1) ∧
      (∀ b, b < [[0, 1], [1, 0]].length → ∀ j, j < 2 - 1 →
        ((textTermRows cmZero ([[0, 1], [1, 0]].map (textEmbPure cmZero))
            ([[0, 0, 0, 0], [0, 0, 0, 0]].map (melEmbPure cmZero))
            [[0, 1], [1, 0]]).getD b []).getD j 0 =
          ceTerm (((textLogitsRows cmZero
              ([[0, 1], [1, 0]].map (textEmbPure cmZero))
              ([[0, 0, 0, 0], [0, 0, 0, 0]].map (melEmbPure cmZero))).getD b
              []).getD j [])
            (([[0, 1], [1, 0]].getD b []).getD (j + 1) 0)) ∧
      (∀ b, b < [[0, 0, 0, 0], [0, 0, 0, 0]].length → ∀ j, j < 4 - 1 →
        ((melTermRows cmZero ([[0, 1], [1, 0]].map (textEmbPure cmZero))
            ([[0, 0, 0, 0], [0, 0, 0, 0]].map (melEmbPure cmZero))
            [[0, 0, 0, 0], [0, 0, 0, 0]]).getD b []).getD j 0 =
          ceTerm (((melLogitsRows cmZero
              ([[0, 1], [1, 0]].map (textEmbPure cmZero))
              ([[0, 0, 0, 0], [0, 0, 0, 0]].map (melEmbPure cmZero))).getD b
              []).getD j [])
            (([[0, 0, 0, 0], [0, 0, 0, 0]].getD b []).getD (j + 1) 0)) :=
  gptTts_forward_shifted_targets cmZero [[0, 1], [1, 0]] [2, 2]
    [[0, 0, 0, 0], [0, 0, 0, 0]] [3, 3] 2 4 (by decide) (by decide) (by decide)
    (by decide) (by decide) (by decide) (by decide)

theorem getD_zipWith_of_lt {β γ δ : Type} (f : β → γ → δ) (as : List β)
    (bs : List γ) (b : ℕ) (hb1 : b < as.length) (hb2 : b < bs.length)
    (d : δ) (d1 : β) (d2 : γ) :
    (List.zipWith f as bs).getD b d = f (as.getD b d1) (bs.getD b d2) := by
  have hb : b < (List.zipWith f as bs).length := by
    rw [List.length_zipWith]; omega
  rw [List.getD_eq_getElem _ _ hb, List.getD_eq_getElem _ _ hb1,
    List.getD_eq_getElem _ _ hb2, List.getElem_zipWith]

theorem forwardBody_melCodes_getD (m : GptTtsModel α)
    (tes mes : List (List α)) (textRows melRows : List (List ℕ))
    (ol : List ℕ) (b : ℕ)
    (hb1 : b < (rawCodesRows m tes mes).length) (hb2 : b < ol.length) :
    (forwardBody m tes mes textRows melRows ol).melCodes.getD b [] =
      cleanCodesRow (maskedCodesRow ((rawCodesRows m tes mes).getD b [])
        (ol.getD b 0) ((melRows.headD []).length - 1)) := by
  show (List.map cleanCodesRow _).getD b [] = _
  rw [getD_map_of_lt cleanCodesRow _ b (by rw [List.length_zipWith]; omega) [] [],
    getD_zipWith_of_lt _ _ _ b hb1 hb2 [] [] 0]

/-- C3 (confirmed): in the cleaned mel codes returned by the training
path, the padding mask zeroes exactly the positions at index
`≥ output_lengths - 1` of the corresponding batch row, and no other
position is zeroed by that mask: below `output_lengths - 1` the returned
entry is the untouched argmax code (subject only to the separate
reserved-id zeroing of lines 65-66, which never touches the mask). -/
theorem gptTts_forward_mask_exact (m : GptTtsModel α)
    (textRows : List (List ℕ)) (tl : List ℕ) (melRows : List (List ℕ))
    (ol : List ℕ) (M : ℕ)
    (ht1 : ∀ row ∈ textRows, ∀ i ∈ row, i < NUMBER_TEXT_TOKENS m.nSymbols)
    (ht2 : ∀ row ∈ textRows, row.length ≤ MAX_SYMBOLS_PER_PHRASE)
    (hm1 : ∀ row ∈ melRows, ∀ i ∈ row, i < MEL_DICTIONARY_SIZE)
    (hM : ∀ row ∈ melRows, row.length = M)
    (hMle : M ≤ maxMelFrames)
    (htb : textRows.length = melRows.length)
    (hob : ol.length = melRows.length)
    (b t : ℕ) (hb : b < melRows.length) (ht : t < M - 2) :
    ∃ r, forward m textRows tl melRows ol = .ok r ∧
      (r.melCodes.getD b []).getD t 0 =
        (if (ol.getD b 0) - 1 ≤ t then 0
         else zeroReserved
           (((rawCodesRows m (textRows.map (textEmbPure m))
             (melRows.map (melEmbPure m))).getD b []).getD t 0)) := by
  have hm2 : ∀ row ∈ melRows, row.length ≤ maxMelFrames :=
    fun row hr => (hM row hr) ▸ hMle
  refine ⟨_, forward_eq_ok m textRows tl melRows ol ht1 ht2 hm1 hm2, ?_⟩
  have hraw : (rawCodesRows m (textRows.map (textEmbPure m))
      (melRows.map (melEmbPure m))).length = melRows.length := by
    rw [rawCodesRows_length]
    simp [htb]
  rw [forwardBody_melCodes_getD m _ _ textRows melRows ol b (by omega)
    (by omega)]
  have hW : (melRows.headD []).length = M :=
    headD_length_eq melRows M hM (List.length_pos.mp (by omega))
  have hrowlen : (melRows.getD b []).length = M :=
    hM _ (List.getD_eq_getElem melRows [] hb ▸ List.getElem_mem _)
  have hcodes : ((rawCodesRows m (textRows.map (textEmbPure m))
      (melRows.map (melEmbPure m))).getD b []).length = M - 1 := by
    rw [rawCodesRows_getD m _ _ b (by simp [htb]; omega) (by simp; omega)]
    rw [List.length_map, List.length_dropLast, melLogitsOf_length,
      getD_map_of_lt (melEmbPure m) melRows b hb _ [], melEmbPure_length,
      hrowlen]
  rw [hW]
  exact cleanMasked_getD _ _ _ t (by omega) (by omega)

/-- C3 (witness): the mask-exactness statement instantiated at a concrete
valid call (mel width 4, output lengths [3, 2], batch row 1, position 1,
which lies at `output_length - 1` and is therefore zeroed). -/
theorem gptTts_forward_mask_exact_witness :
    ∃ r, forward cmZero [[0], [0]] [1, 1] [[0, 0, 0, 0], [0, 0, 0, 0]]
        [3, 2] = .ok r ∧
      (r.melCodes.getD 1 []).getD 1 0 =
        (if ([3, 2].getD 1 0) - 1 ≤ 1 then 0
         else zeroReserved
           (((rawCodesRows cmZero ([[0], [0]].map (textEmbPure cmZero))
             ([[0, 0, 0, 0], [0, 0, 0, 0]].map
               (melEmbPure cmZero))).getD 1 []).getD 1 0)) :=
  gptTts_forward_mask_exact cmZero [[0], [0]] [1, 1]
    [[0, 0, 0, 0], [0, 0, 0, 0]] [3, 2] 4 (by decide) (by decide) (by decide)
    (by decide) (by decide) (by decide) (by decide) 1 1 (by decide) (by decide)

theorem inference_eq (m : GptTtsModel α) (textRows : List (List ℕ))
    (tes : List (List α)) (htes : mapME (textEmbedRow m) textRows = .ok tes) :
    inference m textRows =
      match inferLoop m tes (maxMelFrames + 2)
          (List.replicate textRows.length [MEL_START_TOKEN])
          (List.replicate textRows.length false) with
      | .error e => .error e
      | .ok melSeq =>
        .ok ⟨decide (maxMelFrames ≤ melSeq.length),
          melSeq.map (fun row =>
            ((row.drop 1).dropLast).map (fun x => if x < 512 then x else 0))⟩ := by
  unfold inference
  rw [htes]

/-- C4 (confirmed): every cleaned mel output handed to the downstream
quantized decoder is free of ids `≥ MEL_DICTIONARY_SIZE - 3 = 512`: the
cleaned mel codes and cleaned mel targets returned by the training path
(zeroed by the `extra_mask` of lines 65-66 and 70), and every row of the
sequence returned by `inference` (zeroed by line 96). -/
theorem gptTts_clean_outputs_below_512 :
    (∀ (m : GptTtsModel α) (textRows : List (List ℕ)) (tl : List ℕ)
       (melRows : List (List ℕ)) (ol : List ℕ),
      (∀ row ∈ textRows, ∀ i ∈ row, i < NUMBER_TEXT_TOKENS m.nSymbols) →
      (∀ row ∈ textRows, row.length ≤ MAX_SYMBOLS_PER_PHRASE) →
      (∀ row ∈ melRows, ∀ i ∈ row, i < MEL_DICTIONARY_SIZE) →
      (∀ row ∈ melRows, row.length ≤ maxMelFrames) →
      ∃ r, forward m textRows tl melRows ol = .ok r ∧
        (∀ row ∈ r.melCodes, ∀ x ∈ row, x < 512) ∧
        (∀ row ∈ r.melTargets, ∀ x ∈ row, x < 512)) ∧
    (∀ (m : GptTtsModel α) (textRows : List (List ℕ)) (r : InferResult),
      inference m textRows = .ok r →
      ∀ row ∈ r.melSeq, ∀ x ∈ row, x < 512) := by
  constructor
  · intro m textRows tl melRows ol ht1 ht2 hm1 hm2
    refine ⟨_, forward_eq_ok m textRows tl melRows ol ht1 ht2 hm1 hm2, ?_, ?_⟩
    · intro row hrow x hx
      simp only [forwardBody, List.mem_map] at hrow
      rcases hrow with ⟨mrow, _, rfl⟩
      rcases List.mem_map.mp hx with ⟨y, _, rfl⟩
      exact zeroReserved_lt_512 y
    · intro row hrow x hx
      simp only [forwardBody, List.mem_map] at hrow
      rcases hrow with ⟨mr, _, rfl⟩
      rcases List.mem_map.mp hx with ⟨y, _, rfl⟩
      exact zeroReserved_lt_512 y
  · intro m textRows r h
    cases htes : mapME (textEmbedRow m) textRows with
    | error e => unfold inference at h; rw [htes] at h; cases h
    | ok tes =>
      rw [inference_eq m textRows tes htes] at h
      cases hloop : inferLoop m tes (maxMelFrames + 2)
          (List.replicate textRows.length [MEL_START_TOKEN])
          (List.replicate textRows.length false) with
      | error e => rw [hloop] at h; cases h
      | ok seq =>
        rw [hloop] at h
        cases h
        intro row hrow x hx
        rcases List.mem_map.mp hrow with ⟨srow, _, rfl⟩
        rcases List.mem_map.mp hx with ⟨y, _, rfl⟩
        by_cases hy : y < 512
        · simp [hy]
        · simp [hy]

set_option maxRecDepth 40000 in
/-- C4 (witness): the reserved-id bound instantiated at a concrete
training call and at a concrete inference run that emits the code
sequence `[5]`. -/
theorem gptTts_clean_outputs_below_512_witness :
    (∃ r, forward cmZero [[0], [0]] [1, 1] [[511, 0, 514, 0], [0, 512, 0, 0]]
        [3, 3] = .ok r ∧
      (∀ row ∈ r.melCodes, ∀ x ∈ row, x < 512) ∧
      (∀ row ∈ r.melTargets, ∀ x ∈ row, x < 512)) ∧
    (∀ row ∈ (InferResult.mk false [[5]]).melSeq, ∀ x ∈ row, x < 512) :=
  ⟨gptTts_clean_outputs_below_512.1 cmZero [[0], [0]] [1, 1]
      [[511, 0, 514, 0], [0, 512, 0, 0]] [3, 3] (by decide) (by decide)
      (by decide) (by decide),
    gptTts_clean_outputs_below_512.2 cmOneTok [[0]]
      (InferResult.mk false [[5]]) (by rfl)⟩

theorem mapME_ok_forall {β γ : Type} (f : β → Except Err γ) (l : List β)
    (ys : List γ) (h : mapME f l = .ok ys) :
    ∀ x ∈ l, ∃ y, f x = .ok y := by
  induction l generalizing ys with
  | nil => intro x hx; cases hx
  | cons x xs ih =>
    simp only [mapME] at h
    cases hfx : f x with
    | error e => rw [hfx] at h; cases h
    | ok y =>
      rw [hfx] at h
      cases hrest : mapME f xs with
      | error e => rw [hrest] at h; cases h
      | ok ys' =>
        rw [hrest] at h
        intro z hz
        rcases List.mem_cons.mp hz with rfl | hz'
        · exact ⟨y, hfx⟩
        · exact ih ys' hrest z hz'

theorem textEmbedRow_error_val (m : GptTtsModel α) (row : List ℕ) (e : Err)
    (h : textEmbedRow m row = .error e) : e = .indexOutOfRange := by
  by_cases h1 : ∀ i ∈ row, i < NUMBER_TEXT_TOKENS m.nSymbols
  · by_cases h2 : row.length ≤ MAX_SYMBOLS_PER_PHRASE
    · rw [textEmbedRow_eq_ok m row h1 h2] at h; cases h
    · unfold textEmbedRow at h
      rw [embLookup_eq_ok _ _ _ h1, embLookup_eq_error _ _ _
        (fun hc => h2 ((range_forall_lt _ _).mp hc))] at h
      cases h
      rfl
  · unfold textEmbedRow at h
    rw [embLookup_eq_error _ _ _ h1] at h
    cases h
    rfl

theorem melEmbedRow_error_val (m : GptTtsModel α) (row : List ℕ) (e : Err)
    (h : melEmbedRow m row = .error e) : e = .indexOutOfRange := by
  by_cases h1 : ∀ i ∈ row, i < MEL_DICTIONARY_SIZE
  · by_cases h2 : row.length ≤ maxMelFrames
    · rw [melEmbedRow_eq_ok m row h1 h2] at h; cases h
    · unfold melEmbedRow at h
      rw [embLookup_eq_ok _ _ _ h1, embLookup_eq_error _ _ _
        (fun hc => h2 ((range_forall_lt _ _).mp hc))] at h
      cases h
      rfl
  · unfold melEmbedRow at h
    rw [embLookup_eq_error _ _ _ h1] at h
    cases h
    rfl

/-- The embedding and positional-encoding layer applied to a whole batch,
exactly as the two modality paths of gpt_tts.py lines 39-42 run it. -/
def embedLayer (m : GptTtsModel α) (textRows melRows : List (List ℕ)) :
    Except Err (List (List α) × List (List α)) :=
  match mapME (textEmbedRow m) textRows with
  | .error e => .error e
  | .ok tes =>
    match mapME (melEmbedRow m) melRows with
    | .error e => .error e
    | .ok mes => .ok (tes, mes)

/-- C6 (confirmed): the embedding and positional-encoding layer succeeds
exactly when every text id is below `NUMBER_TEXT_TOKENS`, every mel id is
below `MEL_DICTIONARY_SIZE`, no text row is longer than
`MAX_SYMBOLS_PER_PHRASE` (200) and no mel row is longer than
`max_mel_frames` (225); any failure is an index-out-of-range error, and
`forward` surfaces that very error to its caller without recovering. -/
theorem gptTts_embedding_ok_iff (m : GptTtsModel α)
    (textRows melRows : List (List ℕ)) (tl ol : List ℕ) :
    ((∃ v, embedLayer m textRows melRows = .ok v) ↔
      ((∀ row ∈ textRows,
          (∀ i ∈ row, i < NUMBER_TEXT_TOKENS m.nSymbols) ∧
            row.length ≤ MAX_SYMBOLS_PER_PHRASE) ∧
        (∀ row ∈ melRows,
          (∀ i ∈ row, i < MEL_DICTIONARY_SIZE) ∧
            row.length ≤ maxMelFrames))) ∧
    (∀ e, embedLayer m textRows melRows = .error e →
      e = .indexOutOfRange ∧
        forward m textRows tl melRows ol = .error e) := by
  constructor
  · constructor
    · rintro ⟨v, hv⟩
      unfold embedLayer at hv
      cases htes : mapME (textEmbedRow m) textRows with
      | error e => rw [htes] at hv; cases hv
      | ok tes =>
        rw [htes] at hv
        cases hmes : mapME (melEmbedRow m) melRows with
        | error e => rw [hmes] at hv; cases hv
        | ok mes =>
          constructor
          · intro row hrow
            rcases mapME_ok_forall _ _ _ htes row hrow with ⟨y, hy⟩
            exact (textEmbedRow_ok_iff m row).mp ⟨y, hy⟩
          · intro row hrow
            rcases mapME_ok_forall _ _ _ hmes row hrow with ⟨y, hy⟩
            exact (melEmbedRow_ok_iff m row).mp ⟨y, hy⟩
    · rintro ⟨h1, h2⟩
      refine ⟨(textRows.map (textEmbPure m), melRows.map (melEmbPure m)), ?_⟩
      unfold embedLayer
      rw [mapME_textEmbedRow_ok m textRows (fun row hr => (h1 row hr).1)
        (fun row hr => (h1 row hr).2),
        mapME_melEmbedRow_ok m melRows (fun row hr => (h2 row hr).1)
        (fun row hr => (h2 row hr).2)]
  · intro e he
    unfold embedLayer at he
    cases htes : mapME (textEmbedRow m) textRows with
    | error e' =>
      rw [htes] at he
      cases he
      rcases mapME_error_mem _ _ _ htes with ⟨row, _, hrow⟩
      refine ⟨textEmbedRow_error_val m row _ hrow, ?_⟩
      unfold forward
      rw [htes]
    | ok tes =>
      rw [htes] at he
      cases hmes : mapME (melEmbedRow m) melRows with
      | error e' =>
        rw [hmes] at he
        cases he
        rcases mapME_error_mem _ _ _ hmes with ⟨row, _, hrow⟩
        refine ⟨melEmbedRow_error_val m row _ hrow, ?_⟩
        unfold forward
        rw [htes, hmes]
      | ok mes => rw [hmes] at he; cases he

/-- C6 (witness): a text id equal to the vocabulary bound makes the
embedding layer and `forward` fail with IndexOutOfRange, while the same
call with the id in range succeeds. -/
theorem gptTts_embedding_ok_iff_witness :
    (∃ v, embedLayer cmZero [[0]] [[0, 0]] = .ok v) ∧
    Err.indexOutOfRange = Err.indexOutOfRange ∧
      forward cmZero [[202]] [1] [[0, 0]] [1] = .error .indexOutOfRange := by
  constructor
  · exact (gptTts_embedding_ok_iff cmZero [[0]] [[0, 0]] [1] [1]).1.mpr
      (by decide)
  · exact (gptTts_embedding_ok_iff cmZero [[202]] [[0, 0]] [1] [1]).2
      .indexOutOfRange (by rfl)

/-- C8 (confirmed): the training-path forward computation is
deterministic.  The source forward pass samples nothing (no dropout call,
no random op: lines 38-71 are embedding lookups, the backbone, linear
heads, argmax and arithmetic), so its shallow embedding is a pure
function of the frozen weights and the inputs, and two calls with
identical arguments are definitionally equal — likewise for greedy
argmax inference. -/
theorem gptTts_forward_deterministic (m : GptTtsModel α)
    (textRows : List (List ℕ)) (tl : List ℕ) (melRows : List (List ℕ))
    (ol : List ℕ) :
    forward m textRows tl melRows ol = forward m textRows tl melRows ol ∧
      inference m textRows = inference m textRows :=
  ⟨rfl, rfl⟩

theorem nextToken_eq_ok (m : GptTtsModel α) (te : List α) (row : List ℕ)
    (h1 : ∀ i ∈ row, i < MEL_DICTIONARY_SIZE)
    (h2 : row.length ≤ maxMelFrames) :
    nextToken m te row =
      .ok (((melLogitsOf m te (melEmbPure m row)).map softArgmax).getLastD 0) := by
  unfold nextToken
  rw [melEmbedRow_eq_ok m row h1 h2]

theorem all_replicate_false (n : ℕ) (h : 0 < n) :
    (List.replicate n false).all (fun s => s) = false := by
  cases n with
  | zero => omega
  | succ k => simp [List.replicate_succ]

theorem all_replicate_true (n : ℕ) :
    (List.replicate n true).all (fun s => s) = true := by
  simp

theorem inferLoop_step_ok (m : GptTtsModel α) (tes : List (List α))
    (fuel : ℕ) (melSeq : List (List ℕ)) (stops : List Bool) (nexts : List ℕ)
    (hguard : stops.all (fun s => s) = false ∧ melSeq.length < maxMelFrames)
    (hnexts : mapME (fun p => nextToken m p.1 p.2) (tes.zip melSeq) =
      .ok nexts) :
    inferLoop m tes (fuel + 1) melSeq stops =
      inferLoop m tes fuel
        (List.zipWith (fun row v => row ++ [v]) melSeq nexts)
        (List.zipWith (fun s v => s || decide (v = MEL_STOP_TOKEN)) stops
          nexts) := by
  rw [inferLoop, if_pos hguard, hnexts]

theorem inferLoop_step_err (m : GptTtsModel α) (tes : List (List α))
    (fuel : ℕ) (melSeq : List (List ℕ)) (stops : List Bool) (e : Err)
    (hguard : stops.all (fun s => s) = false ∧ melSeq.length < maxMelFrames)
    (herr : mapME (fun p => nextToken m p.1 p.2) (tes.zip melSeq) =
      .error e) :
    inferLoop m tes (fuel + 1) melSeq stops = .error e := by
  rw [inferLoop, if_pos hguard, herr]

theorem inferLoop_exit (m : GptTtsModel α) (tes : List (List α)) (fuel : ℕ)
    (melSeq : List (List ℕ)) (stops : List Bool)
    (hguard : ¬(stops.all (fun s => s) = false ∧
      melSeq.length < maxMelFrames)) :
    inferLoop m tes (fuel + 1) melSeq stops = .ok melSeq := by
  rw [inferLoop, if_neg hguard]

theorem inference_eq_ok (m : GptTtsModel α) (textRows : List (List ℕ))
    (tes : List (List α)) (seq : List (List ℕ))
    (htes : mapME (textEmbedRow m) textRows = .ok tes)
    (hloop : inferLoop m tes (maxMelFrames + 2)
      (List.replicate textRows.length [MEL_START_TOKEN])
      (List.replicate textRows.length false) = .ok seq) :
    inference m textRows =
      .ok ⟨decide (maxMelFrames ≤ seq.length),
        seq.map (fun row =>
          ((row.drop 1).dropLast).map (fun x => if x < 512 then x else 0))⟩ := by
  rw [inference_eq m textRows tes htes, hloop]

theorem inference_eq_err (m : GptTtsModel α) (textRows : List (List ℕ))
    (tes : List (List α)) (e : Err)
    (htes : mapME (textEmbedRow m) textRows = .ok tes)
    (hloop : inferLoop m tes (maxMelFrames + 2)
      (List.replicate textRows.length [MEL_START_TOKEN])
      (List.replicate textRows.length false) = .error e) :
    inference m textRows = .error e := by
  rw [inference_eq m textRows tes htes, hloop]

/-- C7 (confirmed): when the very first decoding step emits
`MEL_STOP_TOKEN` for every batch row, the loop stops after that single
step and, after stripping the injected START and the final token and
zeroing ids `≥ 512`, the returned sequence has length 0 in every row. -/
theorem gptTts_inference_immediate_stop (m : GptTtsModel α)
    (textRows : List (List ℕ)) (tes : List (List α))
    (htes : mapME (textEmbedRow m) textRows = .ok tes)
    (hb : 0 < textRows.length) (hb2 : textRows.length < maxMelFrames)
    (hstop : ∀ te ∈ tes, nextToken m te [MEL_START_TOKEN] = .ok MEL_STOP_TOKEN) :
    inference m textRows = .ok ⟨false, List.replicate textRows.length []⟩ := by
  have hmapconst : ((tes.zip (List.replicate textRows.length
      [MEL_START_TOKEN])).map (fun _ => MEL_STOP_TOKEN)) =
      List.replicate textRows.length MEL_STOP_TOKEN := by
    rw [List.eq_replicate_iff]
    constructor
    · simp [mapME_length _ _ _ htes]
    · intro x hx
      rcases List.mem_map.mp hx with ⟨_, _, rfl⟩
      rfl
  have hnexts : mapME (fun p => nextToken m p.1 p.2)
      (tes.zip (List.replicate textRows.length [MEL_START_TOKEN])) =
      .ok (List.replicate textRows.length MEL_STOP_TOKEN) := by
    rw [← hmapconst]
    apply mapME_ok_of_forall
    intro p hp
    rw [List.eq_of_mem_replicate (List.of_mem_zip hp).2]
    exact hstop p.1 (List.of_mem_zip hp).1
  have hloop : inferLoop m tes (maxMelFrames + 2)
      (List.replicate textRows.length [MEL_START_TOKEN])
      (List.replicate textRows.length false) =
      .ok (List.replicate textRows.length
        ([MEL_START_TOKEN] ++ [MEL_STOP_TOKEN])) := by
    rw [show maxMelFrames + 2 = (maxMelFrames + 1) + 1 from rfl]
    rw [inferLoop_step_ok m tes (maxMelFrames + 1) _ _ _
      ⟨all_replicate_false _ hb, by simpa using hb2⟩ hnexts]
    simp only [zipWith_replicate, Bool.false_or]
    apply inferLoop_exit
    intro hcond
    have h1 := hcond.1
    rw [show (decide True : Bool) = true from rfl, all_replicate_true] at h1
    cases h1
  rw [inference_eq_ok m textRows tes _ htes hloop]
  have hwarn : decide (maxMelFrames ≤ (List.replicate textRows.length
      ([MEL_START_TOKEN] ++ [MEL_STOP_TOKEN])).length) = false := by
    simp only [List.length_replicate]
    exact decide_eq_false (Nat.not_le.mpr hb2)
  rw [hwarn, List.map_replicate]
  rfl

set_option maxRecDepth 40000 in
/-- C7 (witness): the immediate-stop statement instantiated at a concrete
model whose mel head always puts its maximum on `MEL_STOP_TOKEN`. -/
theorem gptTts_inference_immediate_stop_witness :
    inference cmStop [[0]] = .ok ⟨false, List.replicate 1 []⟩ :=
  gptTts_inference_immediate_stop cmStop [[0]] [[()]] (by rfl) (by decide)
    (by decide)
    (by
      intro te hte
      have h : te = [()] := by simpa using hte
      rw [h]
      rfl)

theorem melEmbedRow_eq_err_of_long (m : GptTtsModel α) (row : List ℕ)
    (h : ¬row.length ≤ maxMelFrames) :
    melEmbedRow m row = .error .indexOutOfRange := by
  unfold melEmbedRow
  by_cases h1 : ∀ i ∈ row, i < MEL_DICTIONARY_SIZE
  · rw [embLookup_eq_ok _ _ _ h1, embLookup_eq_error _ _ _
      (fun hc => h ((range_forall_lt _ _).mp hc))]
  · rw [embLookup_eq_error _ _ _ h1]

theorem nextToken_ok_lt (m : GptTtsModel α) (te : List α) (row : List ℕ)
    (v : ℕ) (h : nextToken m te row = .ok v) : v < MEL_DICTIONARY_SIZE := by
  unfold nextToken at h
  cases hme : melEmbedRow m row with
  | error e => rw [hme] at h; cases h
  | ok me =>
    rw [hme] at h
    cases h
    by_cases hc : (melLogitsOf m te me).map softArgmax = []
    · rw [hc]
      simp [MEL_DICTIONARY_SIZE]
    · have hmem := getLastD_mem_of_ne_nil _ hc 0
      rcases List.mem_map.mp hmem with ⟨l, hl, heq⟩
      rw [← heq]
      have hw := melLogitsOf_widths m te me l hl
      have hne : l ≠ [] := by
        intro hnil
        rw [hnil] at hw
        simp [MEL_DICTIONARY_SIZE] at hw
      have := argmaxIdx_lt_length l hne
      rw [hw] at this
      exact this

/-- The decoding loop under a model that never emits the stop token: with
a batch smaller than `max_mel_frames`, the `len(mel_seq)` guard never
fires (it measures the batch dimension) and the loop keeps appending
until the mel position-embedding lookup overruns its 225-row table — an
IndexError, not a graceful stop. -/
theorem inferLoop_no_stop (m : GptTtsModel α) (tes : List (List α))
    (hnostop : ∀ te row v, nextToken m te row = .ok v → v ≠ MEL_STOP_TOKEN) :
    ∀ (fuel L : ℕ) (melSeq : List (List ℕ)) (stops : List Bool),
      melSeq.length = tes.length →
      0 < melSeq.length → melSeq.length < maxMelFrames →
      stops.length = melSeq.length → (∀ s ∈ stops, s = false) →
      (∀ row ∈ melSeq, row.length = L) → 1 ≤ L → L ≤ maxMelFrames + 1 →
      (∀ row ∈ melSeq, ∀ x ∈ row, x < MEL_DICTIONARY_SIZE) →
      maxMelFrames + 2 - L ≤ fuel →
      inferLoop m tes fuel melSeq stops = .error .indexOutOfRange := by
  intro fuel
  induction fuel with
  | zero =>
    intro L melSeq stops _ _ _ _ _ _ hL1 hL2 _ hfuel
    omega
  | succ fuel ih =>
    intro L melSeq stops hms hb hb2 hsl hsf hrowlen hL1 hL2 hids hfuel
    have hguard : stops.all (fun s => s) = false ∧
        melSeq.length < maxMelFrames := by
      refine ⟨?_, hb2⟩
      cases stops with
      | nil =>
        exfalso
        rw [List.length_nil] at hsl
        omega
      | cons s ss =>
        have hs : s = false := hsf s (List.mem_cons_self s ss)
        simp [List.all_cons, hs]
    by_cases hL : L ≤ maxMelFrames
    · have hstep : ∀ p ∈ tes.zip melSeq, nextToken m p.1 p.2 =
          .ok (((melLogitsOf m p.1 (melEmbPure m p.2)).map
            softArgmax).getLastD 0) := by
        intro p hp
        have hprow := (List.of_mem_zip hp).2
        exact nextToken_eq_ok m p.1 p.2 (hids p.2 hprow)
          (by rw [hrowlen p.2 hprow]; exact hL)
      have hnexts := mapME_ok_of_forall _
        (fun p : List α × List ℕ =>
          ((melLogitsOf m p.1 (melEmbPure m p.2)).map softArgmax).getLastD 0)
        _ hstep
      rw [inferLoop_step_ok m tes fuel melSeq stops _ hguard hnexts]
      have hnl : ((tes.zip melSeq).map
          (fun p : List α × List ℕ =>
            ((melLogitsOf m p.1 (melEmbPure m p.2)).map
              softArgmax).getLastD 0)).length = melSeq.length := by
        rw [List.length_map, List.length_zip]
        omega
      have hnextval : ∀ v ∈ (tes.zip melSeq).map
          (fun p : List α × List ℕ =>
            ((melLogitsOf m p.1 (melEmbPure m p.2)).map
              softArgmax).getLastD 0),
          v < MEL_DICTIONARY_SIZE ∧ v ≠ MEL_STOP_TOKEN := by
        intro v hv
        rcases List.mem_map.mp hv with ⟨p, hp, rfl⟩
        have hok := hstep p hp
        exact ⟨nextToken_ok_lt m p.1 p.2 _ hok, hnostop p.1 p.2 _ hok⟩
      apply ih (L + 1)
      · rw [List.length_zipWith]
        omega
      · rw [List.length_zipWith]
        omega
      · rw [List.length_zipWith]
        omega
      · rw [List.length_zipWith, List.length_zipWith]
        omega
      · intro s hs
        rcases mem_zipWith _ hs with ⟨s0, v, hs0, hvv, rfl⟩
        rw [hsf s0 hs0, decide_eq_false (hnextval v hvv).2]
        rfl
      · intro row hrow
        rcases mem_zipWith _ hrow with ⟨r0, v, hr0, hvv, rfl⟩
        rw [List.length_append, hrowlen r0 hr0]
        rfl
      · omega
      · omega
      · intro row hrow
        rcases mem_zipWith _ hrow with ⟨r0, v, hr0, hvv, rfl⟩
        intro x hx
        rcases List.mem_append.mp hx with hx0 | hx1
        · exact hids r0 hr0 x hx0
        · rw [List.mem_singleton.mp hx1]
          exact (hnextval v hvv).1
      · omega
    · cases melSeq with
      | nil =>
        exfalso
        rw [List.length_nil] at hb
        omega
      | cons row rest =>
        cases tes with
        | nil =>
          exfalso
          rw [List.length_cons, List.length_nil] at hms
          omega
        | cons te tes' =>
          have h226 : ¬row.length ≤ maxMelFrames := by
            rw [hrowlen row (List.mem_cons_self row rest)]
            omega
          have herr : nextToken m te row = .error .indexOutOfRange := by
            unfold nextToken
            rw [melEmbedRow_eq_err_of_long m row h226]
          have hmapE : mapME (fun p : List α × List ℕ =>
              nextToken m p.1 p.2) ((te :: tes').zip (row :: rest)) =
              .error .indexOutOfRange := by
            rw [List.zip_cons_cons]
            simp only [mapME]
            rw [herr]
          exact inferLoop_step_err m (te :: tes') fuel (row :: rest) stops _
            hguard hmapE

/-- C2 (code_bug exhibit): with any model that never emits
`MEL_STOP_TOKEN` and a batch smaller than `max_mel_frames`, `inference`
does not stop at the frame limit — it raises IndexError from the mel
position embedding once the sequence outgrows the 225-row table, because
the loop guard `len(mel_seq) < max_mel_frames` compares the *batch size*
(the first tensor dimension) with the frame limit. -/
theorem gptTts_inference_no_stop_crashes (m : GptTtsModel α)
    (textRows : List (List ℕ)) (tes : List (List α))
    (htes : mapME (textEmbedRow m) textRows = .ok tes)
    (hb : 0 < textRows.length) (hb2 : textRows.length < maxMelFrames)
    (hnostop : ∀ te row v, nextToken m te row = .ok v → v ≠ MEL_STOP_TOKEN) :
    inference m textRows = .error .indexOutOfRange := by
  apply inference_eq_err m textRows tes _ htes
  have hlen : tes.length = textRows.length := mapME_length _ _ _ htes
  apply inferLoop_no_stop m tes hnostop (maxMelFrames + 2) 1
  · rw [List.length_replicate]
    omega
  · rw [List.length_replicate]
    omega
  · rw [List.length_replicate]
    omega
  · rw [List.length_replicate, List.length_replicate]
  · intro s hs
    exact List.eq_of_mem_replicate hs
  · intro row hrow
    rw [List.eq_of_mem_replicate hrow]
    rfl
  · omega
  · omega
  · intro row hrow
    rw [List.eq_of_mem_replicate hrow]
    intro x hx
    rw [List.mem_singleton.mp hx]
    decide
  · omega

theorem argmaxAux_replicate {β : Type} [LinearOrder β] (c : β) :
    ∀ (k i best : ℕ), argmaxAux i best c (List.replicate k c) = best := by
  intro k
  induction k with
  | zero => intro i best; rfl
  | succ k ih =>
    intro i best
    simp only [List.replicate_succ, argmaxAux, lt_irrefl, if_false]
    exact ih (i + 1) best

theorem argmaxIdx_replicate {β : Type} [LinearOrder β] (c : β) (n : ℕ) :
    argmaxIdx (List.replicate n c) = 0 := by
  cases n with
  | zero => rfl
  | succ k =>
    simp only [List.replicate_succ, argmaxIdx]
    exact argmaxAux_replicate c k 1 0

theorem cmZero_nextToken_ne_stop : ∀ (te : List Unit) (row : List ℕ)
    (v : ℕ), nextToken cmZero te row = .ok v → v ≠ MEL_STOP_TOKEN := by
  intro te row v h
  unfold nextToken at h
  cases hme : melEmbedRow cmZero row with
  | error e => rw [hme] at h; cases h
  | ok me =>
    rw [hme] at h
    cases h
    have hall : ∀ x ∈ (melLogitsOf cmZero te me).map softArgmax, x = 0 := by
      intro x hx
      rcases List.mem_map.mp hx with ⟨l, hl, rfl⟩
      rcases List.mem_map.mp hl with ⟨w, _, rfl⟩
      show softArgmax (cmZero.melHead (cmZero.finalNorm w)) = 0
      show argmaxIdx (List.replicate MEL_DICTIONARY_SIZE (0 : ℚ)) = 0
      exact argmaxIdx_replicate 0 MEL_DICTIONARY_SIZE
    rw [getLastD_eq_of_forall _ 0 hall]
    decide

/-- C2 (witness for the exhibit): the crash theorem instantiated at the
all-zero-logits model (argmax always 0, never STOP) with batch size 1. -/
theorem gptTts_inference_no_stop_crashes_witness :
    inference cmZero [[0]] = .error .indexOutOfRange :=
  gptTts_inference_no_stop_crashes cmZero [[0]] [[()]] (by rfl) (by decide)
    (by decide) cmZero_nextToken_ne_stop

theorem getItemFuel_no_fuelExhausted {Item : Type} (cfg : DatasetCfg Item)
    (hdebug : cfg.debug = true) :
    ∀ (fuel i : ℕ), 1 ≤ fuel → cfg.numPaths + 1 - i ≤ fuel →
      getItemFuel cfg fuel i ≠ .error .fuelExhausted := by
  intro fuel
  induction fuel with
  | zero =>
    intro i h1 _
    omega
  | succ fuel ih =>
    intro i _ hf2
    simp only [getItemFuel]
    by_cases hi : i < cfg.numPaths
    · rw [if_pos hi]
      cases hl : cfg.loads i with
      | some it => simp
      | none => exact ih (i + 1) (by omega) (by omega)
    · rw [if_neg hi, hdebug]
      simp

/-- C9 (amended): with `debug_loading_failures` enabled (the dataset's
default), the `return self[index+1]` fallback of `__getitem__` is a
bounded linear scan: starting from any index `i`, within
`numPaths + 1 - i` recursive steps it either returns a successfully
loaded item or surfaces the IndexError that the diagnostic
`self.audiopaths[index]` lookup raises once the index passes the end of
the path list — it never runs out of stack in the model. -/
theorem dataset_getitem_retry_bounded {Item : Type} (cfg : DatasetCfg Item)
    (hdebug : cfg.debug = true) (i fuel : ℕ) (h1 : 1 ≤ fuel)
    (h2 : cfg.numPaths + 1 - i ≤ fuel) :
    getItemFuel cfg fuel i ≠ .error .fuelExhausted ∧
      getItemTerminates cfg i :=
  ⟨getItemFuel_no_fuelExhausted cfg hdebug fuel i h1 h2,
    ⟨fuel, getItemFuel_no_fuelExhausted cfg hdebug fuel i h1 h2⟩⟩

/-- A dataset configuration with the debug print disabled and no loadable
item: every retry step recurses again. -/
def cfgNoDebug : DatasetCfg Unit where
  numPaths := 0
  loads := fun _ => none
  debug := false

/-- C9 (counterexample): with `debug_loading_failures = False` and no
loadable item, the retry chain starting at index 0 never reaches a result
at any recursion depth — the recursion `return self[index+1]` is
unbounded (in Python it dies by RecursionError / stack growth), so the
claim that the chain terminates for every starting index is false as
stated. -/
theorem dataset_getitem_retry_unbounded :
    ¬getItemTerminates cfgNoDebug 0 := by
  have hall : ∀ (fuel i : ℕ),
      getItemFuel cfgNoDebug fuel i = .error .fuelExhausted := by
    intro fuel
    induction fuel with
    | zero => intro i; rfl
    | succ fuel ih =>
      intro i
      simp only [getItemFuel, cfgNoDebug]
      rw [if_neg (Nat.not_lt_zero i), if_neg (by decide : ¬(false = true))]
      exact ih (i + 1)
  rintro ⟨fuel, hf⟩
  exact hf (hall fuel 0)

/-- A dataset configuration with two paths of which only index 1 loads,
and the debug print enabled. -/
def cfgTwoPaths : DatasetCfg Unit where
  numPaths := 2
  loads := fun i => if i = 1 then some () else none
  debug := true

/-- C9 (witness): the bounded-retry statement instantiated at a concrete
two-path dataset starting from index 0 with recursion depth 3. -/
theorem dataset_getitem_retry_bounded_witness :
    getItemFuel cfgTwoPaths 3 0 ≠ .error .fuelExhausted ∧
      getItemTerminates cfgTwoPaths 0 :=
  dataset_getitem_retry_bounded cfgTwoPaths (by rfl) 0 3 (by decide)
    (by decide)

/-- C10 (confirmed): for every audio input `load_audio` accepts, the
result is a single-channel tensor — one row, shape (1, n) — and every
sample in it lies in the closed interval [-1, 1], because the waveform is
clipped in place before the channel dimension is added. -/
theorem load_audio_mono_clipped (raw : RawAudio) (lsr sr : ℕ)
    (out : List (List ℚ)) (h : load_audio raw lsr sr = .ok out) :
    out.length = 1 ∧ ∀ row ∈ out, ∀ x ∈ row, -1 ≤ x ∧ x ≤ 1 := by
  unfold load_audio at h
  cases hsc : stripChannels raw with
  | error e => rw [hsc] at h; cases h
  | ok a =>
    rw [hsc] at h
    cases h
    refine ⟨rfl, ?_⟩
    intro row hrow x hx
    rw [List.mem_singleton] at hrow
    subst hrow
    rcases List.mem_map.mp hx with ⟨y, _, rfl⟩
    unfold clipSample
    constructor
    · exact le_max_left _ _
    · exact max_le (by norm_num) (min_le_left _ _)

/-- C10 (witness): a concrete two-channel input with an overdriven sample
is reduced to its first channel and clipped into [-1, 1]. -/
theorem load_audio_mono_clipped_witness :
    load_audio (RawAudio.two [[3, 0], [0, 0]]) 1 1 = .ok [[1, 0]] ∧
      ([[1, 0]] : List (List ℚ)).length = 1 ∧
      ∀ row ∈ ([[1, 0]] : List (List ℚ)), ∀ x ∈ row, -1 ≤ x ∧ x ≤ 1 :=
  ⟨by rfl, load_audio_mono_clipped (RawAudio.two [[3, 0], [0, 0]]) 1 1
    [[1, 0]] (by rfl)⟩
